import Mathlib

/-! Reverse log proxy egress server, `rlp/internal/egress/server.go`.

A shallow embedding of `Server.Receiver`, `Server.consumeReceiver` and
`Server.Alert`.

One invocation of `Server.Receiver` is a `Call`: the frame of the handler
(its program point and local variables), the producer goroutine started by
`go s.consumeReceiver(buffer, rx, cancel)`, the watchdog goroutine, the
channel `buffer`, and a log of the calls the invocation made on its
collaborators.  Every goroutine advances by atomic steps; a `System` is a
server with any number of calls, and a schedule (a list of `Action`s) is one
interleaving.  A step that is not enabled (a blocked channel receive, a
goroutine that has exited) leaves the system unchanged.

The collaborators are parameters.  The outcome of the `k`-th call of `rx` and
of the `k`-th call of `stream.Send` is any function of `k`, so that every
behaviour of a receiver or a transport, whether or not it reacts to
cancellation, is one instance.

`activeConnections` is an `int64` moved by `atomic.AddInt64`; the embedding
keeps it as an integer, which is exact as long as fewer than `2^63` calls are
in flight at once.
-/

namespace Egress

/-! ## Data -/

/-- Modelled from the spec: `v2.Envelope` is declared outside the sources; the
core never inspects an envelope, so an envelope is represented by a number that
identifies it. -/
abbrev Envelope := Nat

/-- Modelled from the spec: the event-type discriminant of the `Message` oneof
of `v2.Filter` (log, counter, gauge, timer, event). -/
inductive MessageType
  | log | counter | gauge | timer | event
deriving DecidableEq, Repr

/-- Modelled from the spec: `v2.Filter`, with the `source_id` string (empty
when absent) and the optional `Message` discriminant (`none` is Go's `nil`). -/
structure Filter where
  SourceId : String
  Message : Option MessageType
deriving DecidableEq, Repr

/-- Modelled from the spec: `v2.EgressRequest`, with `shard_id` and the
optional `filter` (`none` is Go's `nil`). -/
structure EgressRequest where
  ShardId : String
  Filter : Option Filter
deriving DecidableEq, Repr

/-- The generated getter `r.GetFilter()`. -/
def EgressRequest.GetFilter (r : EgressRequest) : Option Egress.Filter := r.Filter

/-- The four errors `Server.Receiver` can return. -/
inductive Error
  | tooManyConnections
  | invalidRequest
  | setupFailed
  | unexpectedEOF
deriving DecidableEq, Repr

/-- The message of each returned error, as written in the source. -/
def Error.message : Error → String
  | .tooManyConnections => "We have too many connections!"
  | .invalidRequest => "invalid request: cannot have type filter without source id"
  | .setupFailed => "unable to setup subscription"
  | .unexpectedEOF => "unexpected EOF"

/-- One result `(e, err)` of the pull function `rx`: an envelope with a nil
error, `io.EOF`, or any other error. -/
inductive Pull
  | envelope (e : Envelope)
  | eof
  | failed
deriving DecidableEq, Repr

/-- Whether a pull result carries an envelope (its error is nil). -/
def Pull.isEnvelope : Pull → Bool
  | .envelope _ => true
  | _ => false

/-- The interface `Receiver`: `Receive(ctx, req)` answers a pull function (the
result of its `k`-th call is `rx k`) or a setup error (`none`).  The context is
represented by the number that identifies the stream it derives from. -/
structure Receiver where
  Receive : Nat → EgressRequest → Option (Nat → Pull)

/-- The stream `v2.Egress_ReceiverServer`: `Context` identifies the stream's
context, `Send k data` tells whether the `k`-th call of `Send`, made with
`data`, returns a nil error. -/
structure Egress_ReceiverServer where
  Context : Nat
  Send : Nat → Envelope → Bool

/-- Modelled from the spec: `metricemitter.CounterMetric` is declared outside
the sources; it is a counter whose `Increment(n)` adds `n`. -/
structure CounterMetric where
  delta : Nat
deriving DecidableEq, Repr

/-- Modelled from the spec: `CounterMetric.Increment(c uint64)`. -/
def CounterMetric.Increment (m : CounterMetric) (c : Nat) : CounterMetric :=
  { delta := m.delta + c }

/-- Go's conversion `uint64(x)` of a signed integer: reduction modulo `2^64`. -/
def uint64 (x : Int) : Nat := (x % 2 ^ 64).toNat

/-- Modelled from the spec: the interface `HealthRegistrar`, a set of named
gauges moved by `Inc(name)` and `Dec(name)`. -/
structure HealthRegistrar where
  gauge : String → Int

/-- Modelled from the spec: `HealthRegistrar.Inc(name)`. -/
def HealthRegistrar.Inc (h : HealthRegistrar) (name : String) : HealthRegistrar :=
  { gauge := fun n => if n = name then h.gauge n + 1 else h.gauge n }

/-- Modelled from the spec: `HealthRegistrar.Dec(name)`. -/
def HealthRegistrar.Dec (h : HealthRegistrar) (name : String) : HealthRegistrar :=
  { gauge := fun n => if n = name then h.gauge n - 1 else h.gauge n }

/-- The struct `Server`; `ctx` tells whether the server-wide context is done. -/
structure Server where
  activeConnections : Int
  receiver : Receiver
  egressMetric : CounterMetric
  droppedMetric : CounterMetric
  health : HealthRegistrar
  ctx : Bool

/-- The constructor `NewServer`: both counters are new and no connection is
active. -/
def NewServer (r : Receiver) (h : HealthRegistrar) (c : Bool) : Server :=
  { activeConnections := 0
    receiver := r
    egressMetric := { delta := 0 }
    droppedMetric := { delta := 0 }
    health := h
    ctx := c }

/-! ## One invocation of `Server.Receiver` -/

/-- The program points of the handler `Server.Receiver`; each names the
statement about to run.  The three `defer…` points and `returned` carry the
value being returned. -/
inductive Handler
  | entry
  | enter
  | check (activeConnections : Int)
  | setup
  | recv
  | send (data : Envelope)
  | count
  | deferCancel (err : Option Error)
  | deferActive (err : Option Error)
  | deferHealth (err : Option Error)
  | returned (err : Option Error)
deriving DecidableEq, Repr

/-- The program points of the producer goroutine `Server.consumeReceiver`. -/
inductive Producer
  | idle
  | pull
  | enqueue (e : Envelope)
  | close
  | cancel
  | exited
deriving DecidableEq, Repr

/-- The calls an invocation makes on its collaborators and on the shared
counters, in the order it makes them. -/
inductive Event
  | healthInc (name : String)
  | healthDec (name : String)
  | addActive (delta : Int)
  | receive (ctx : Nat) (req : EgressRequest) (ok : Bool)
  | rx (r : Pull)
  | send (data : Envelope) (ok : Bool)
  | egress (c : Nat)
  | dropped (c : Nat)
deriving DecidableEq, Repr

/-- The state of one invocation: arguments `r` and `srv`, the handler's
program point and its local `activeConnections`, the pull function `rx`, the
channel `buffer` (its queue and whether it is closed), whether `ctx` is
cancelled, whether the watchdog goroutine is waiting, the producer's program
point, how often `rx` and `Send` were called, and the log. -/
structure Call where
  r : EgressRequest
  srv : Egress_ReceiverServer
  pc : Handler
  activeConnections : Option Int
  rx : Nat → Pull
  buffer : List Envelope
  closed : Bool
  cancelled : Bool
  watchdog : Bool
  producer : Producer
  pulls : Nat
  sends : Nat
  log : List Event

/-- The capacity of `buffer`: `make(chan *v2.Envelope, 10000)`. -/
def bufferCap : Nat := 10000

/-- The admission cap compared with in `activeConnections > 500`. -/
def maxConnections : Int := 500

/-- An invocation that has not run any statement yet. -/
def Call.new (r : EgressRequest) (srv : Egress_ReceiverServer) : Call :=
  { r := r
    srv := srv
    pc := .entry
    activeConnections := none
    rx := fun _ => .eof
    buffer := []
    closed := false
    cancelled := false
    watchdog := false
    producer := .idle
    pulls := 0
    sends := 0
    log := [] }

/-- The filter test of lines 71-73: a filter is present, its `SourceId` is
empty and its `Message` is set. -/
def invalidFilter (r : EgressRequest) : Bool :=
  match r.GetFilter with
  | none => false
  | some f => f.SourceId == "" && f.Message.isSome

/-- One step of the handler `Server.Receiver`; `none` when it cannot move (it
waits on the open, empty `buffer`, or it has returned).  The statements of
lines 77-97 other than the call of `Receive` (deriving `ctx`, deferring
`cancel`, making `buffer`, starting the watchdog and the producer) touch only
this invocation and are one step with it. -/
def Server.Receiver (s : Server) (c : Call) : Option (Server × Call) :=
  match c.pc with
  | .entry =>
    -- line 62: s.health.Inc("subscriptionCount"), line 63 defers the Dec
    some ({ s with health := s.health.Inc "subscriptionCount" },
          { c with pc := .enter, log := c.log ++ [.healthInc "subscriptionCount"] })
  | .enter =>
    -- line 64: activeConnections := atomic.AddInt64(&s.activeConnections, 1),
    -- line 65 defers the AddInt64 of -1
    some ({ s with activeConnections := s.activeConnections + 1 },
          { c with pc := .check (s.activeConnections + 1)
                   activeConnections := some (s.activeConnections + 1)
                   log := c.log ++ [.addActive 1] })
  | .check activeConnections =>
    -- lines 67-75
    if activeConnections > maxConnections then
      some (s, { c with pc := .deferActive (some .tooManyConnections) })
    else if invalidFilter c.r then
      some (s, { c with pc := .deferActive (some .invalidRequest) })
    else
      some (s, { c with pc := .setup })
  | .setup =>
    -- lines 77-97
    match s.receiver.Receive c.srv.Context c.r with
    | none =>
      some (s, { c with watchdog := true
                        pc := .deferCancel (some .setupFailed)
                        log := c.log ++ [.receive c.srv.Context c.r false] })
    | some rx =>
      some (s, { c with watchdog := true
                        rx := rx
                        producer := .pull
                        pc := .recv
                        log := c.log ++ [.receive c.srv.Context c.r true] })
  | .recv =>
    -- line 99: for data := range buffer
    match c.buffer with
    | data :: rest => some (s, { c with buffer := rest, pc := .send data })
    | [] => if c.closed then some (s, { c with pc := .deferCancel none }) else none
  | .send data =>
    -- lines 100-103: srv.Send(data)
    if c.srv.Send c.sends data then
      some (s, { c with sends := c.sends + 1
                        pc := .count
                        log := c.log ++ [.send data true] })
    else
      some (s, { c with sends := c.sends + 1
                        pc := .deferCancel (some .unexpectedEOF)
                        log := c.log ++ [.send data false] })
  | .count =>
    -- line 107: s.egressMetric.Increment(1)
    some ({ s with egressMetric := s.egressMetric.Increment 1 },
          { c with pc := .recv, log := c.log ++ [.egress 1] })
  | .deferCancel err =>
    -- the deferred cancel() of line 78
    some (s, { c with cancelled := true, pc := .deferActive err })
  | .deferActive err =>
    -- the deferred atomic.AddInt64(&s.activeConnections, -1) of line 65
    some ({ s with activeConnections := s.activeConnections + (-1) },
          { c with pc := .deferHealth err, log := c.log ++ [.addActive (-1)] })
  | .deferHealth err =>
    -- the deferred s.health.Dec("subscriptionCount") of line 63
    some ({ s with health := s.health.Dec "subscriptionCount" },
          { c with pc := .returned err, log := c.log ++ [.healthDec "subscriptionCount"] })
  | .returned _ => none

/-- One step of the producer goroutine `Server.consumeReceiver`; `none` when
it is not running. -/
def Server.consumeReceiver (s : Server) (c : Call) : Option (Server × Call) :=
  match c.producer with
  | .idle => none
  | .pull =>
    -- lines 130-138: e, err := rx()
    match c.rx c.pulls with
    | .envelope e =>
      some (s, { c with pulls := c.pulls + 1
                        producer := .enqueue e
                        log := c.log ++ [.rx (.envelope e)] })
    | .eof =>
      some (s, { c with pulls := c.pulls + 1, producer := .close, log := c.log ++ [.rx .eof] })
    | .failed =>
      some (s, { c with pulls := c.pulls + 1, producer := .close, log := c.log ++ [.rx .failed] })
  | .enqueue e =>
    -- lines 140-144: the select with a default case
    if c.buffer.length < bufferCap then
      some (s, { c with buffer := c.buffer ++ [e], producer := .pull })
    else
      some ({ s with droppedMetric := s.droppedMetric.Increment 1 },
            { c with producer := .pull, log := c.log ++ [.dropped 1] })
  | .close =>
    -- the deferred close(buffer) of line 127
    some (s, { c with closed := true, producer := .cancel })
  | .cancel =>
    -- the deferred cancel() of line 126
    some (s, { c with cancelled := true, producer := .exited })
  | .exited => none

/-- One step of the watchdog goroutine of lines 82-89: once the server-wide
context or `ctx` is done it calls `cancel()` and exits. -/
def Server.watchdog (s : Server) (c : Call) : Option (Server × Call) :=
  if c.watchdog && (s.ctx || c.cancelled) then
    some (s, { c with cancelled := true, watchdog := false })
  else none

/-- The method `Server.Alert(missed int)`. -/
def Server.Alert (s : Server) (missed : Int) : Server :=
  { s with droppedMetric := s.droppedMetric.Increment (uint64 missed) }

/-! ## Interleavings -/

/-- The goroutines of one invocation. -/
inductive Thread
  | handler
  | producer
  | watchdog
deriving DecidableEq, Repr

/-- One step of goroutine `t` of the invocation `c`. -/
def Call.step (t : Thread) (s : Server) (c : Call) : Option (Server × Call) :=
  match t with
  | .handler => s.Receiver c
  | .producer => s.consumeReceiver c
  | .watchdog => s.watchdog c

/-- A server and the invocations of `Server.Receiver` started on it. -/
structure System where
  server : Server
  calls : List Call

/-- What a scheduler or the outside world can do next: start an invocation,
let a goroutine of the `i`-th invocation take a step, call `Alert`, cancel the
server-wide context, or cancel the context of the `i`-th stream. -/
inductive Action
  | call (r : EgressRequest) (srv : Egress_ReceiverServer)
  | step (i : Nat) (t : Thread)
  | alert (missed : Int)
  | shutdown
  | hangup (i : Nat)

/-- The effect of one action. -/
def System.act (σ : System) : Action → System
  | .call r srv => { σ with calls := σ.calls ++ [Call.new r srv] }
  | .step i t =>
    match σ.calls[i]? with
    | none => σ
    | some c =>
      match c.step t σ.server with
      | none => σ
      | some (s, c') => { server := s, calls := σ.calls.set i c' }
  | .alert missed => { σ with server := σ.server.Alert missed }
  | .shutdown => { σ with server := { σ.server with ctx := true } }
  | .hangup i =>
    match σ.calls[i]? with
    | none => σ
    | some c => { σ with calls := σ.calls.set i { c with cancelled := true } }

/-- The effect of a schedule. -/
def System.run (σ : System) (as : List Action) : System := as.foldl System.act σ

/-- A server on which no invocation has started. -/
def System.boot (s : Server) : System := { server := s, calls := [] }

/-! ## Reading the log -/

/-- The `Send` call an event records, if it records one. -/
def Event.sent : Event → Option (Envelope × Bool)
  | .send data ok => some (data, ok)
  | _ => none

/-- The result of `rx` an event records, if it records one. -/
def Event.pulled : Event → Option Pull
  | .rx r => some r
  | _ => none

/-- The envelope `rx` returned with a nil error, if the event records one. -/
def Event.pulledEnvelope : Event → Option Envelope
  | .rx (.envelope e) => some e
  | _ => none

/-- The `Receive` call an event records, if it records one. -/
def Event.received : Event → Option (Nat × EgressRequest × Bool)
  | .receive ctx req ok => some (ctx, req, ok)
  | _ => none

/-- The amount an event adds to the `egress` counter. -/
def Event.egressDelta : Event → Nat
  | .egress c => c
  | _ => 0

/-- The amount an event adds to the `dropped` counter. -/
def Event.droppedDelta : Event → Nat
  | .dropped c => c
  | _ => 0

/-- The amount an event adds to `activeConnections`, if it adds one. -/
def Event.activeDelta : Event → Option Int
  | .addActive d => some d
  | _ => none

/-- The gauge an event increments, if it increments one. -/
def Event.healthInc? : Event → Option String
  | .healthInc n => some n
  | _ => none

/-- The gauge an event decrements, if it decrements one. -/
def Event.healthDec? : Event → Option String
  | .healthDec n => some n
  | _ => none

/-- The calls of `stream.Send`, in order: the envelope passed and whether the
call returned a nil error. -/
def sent (log : List Event) : List (Envelope × Bool) := log.filterMap Event.sent

/-- The results of the calls of `rx`, in order. -/
def pulled (log : List Event) : List Pull := log.filterMap Event.pulled

/-- The envelopes `rx` returned with a nil error, in order. -/
def pulledEnvelopes (log : List Event) : List Envelope := log.filterMap Event.pulledEnvelope

/-- The calls of `Receiver.Receive`, in order: context, request, and whether
the call returned a nil error. -/
def received (log : List Event) : List (Nat × EgressRequest × Bool) :=
  log.filterMap Event.received

/-- The total the invocation added to the `egress` counter. -/
def egressDelta (log : List Event) : Nat := (log.map Event.egressDelta).sum

/-- The total the invocation added to the `dropped` counter. -/
def droppedDelta (log : List Event) : Nat := (log.map Event.droppedDelta).sum

/-- The amounts the invocation added to `activeConnections`, in order. -/
def activeDeltas (log : List Event) : List Int := log.filterMap Event.activeDelta

/-- The gauges the invocation incremented, in order. -/
def healthIncs (log : List Event) : List String := log.filterMap Event.healthInc?

/-- The gauges the invocation decremented, in order. -/
def healthDecs (log : List Event) : List String := log.filterMap Event.healthDec?

/-! ## What holds at each program point -/

/-- The value being returned, once the handler runs its deferred calls. -/
def Handler.result : Handler → Option (Option Error)
  | .deferCancel e | .deferActive e | .deferHealth e | .returned e => some e
  | _ => none

/-- Whether the handler is past `atomic.AddInt64(&s.activeConnections, 1)`. -/
def Handler.counted : Handler → Bool
  | .entry | .enter => false
  | _ => true

/-- Whether the handler is past the admission and filter checks. -/
def Handler.decided : Handler → Bool
  | .entry | .enter | .check _ => false
  | _ => true

/-- The rejection a returned value stands for, if it is one. -/
def rejectionOf : Option Error → Option Error
  | some .tooManyConnections => some .tooManyConnections
  | some .invalidRequest => some .invalidRequest
  | _ => none

/-- Whether `Receive` was called and, if so, whether it returned a nil error,
as told by the value being returned. -/
def openedOf : Option Error → Option Bool
  | some .tooManyConnections | some .invalidRequest => none
  | some .setupFailed => some false
  | none | some .unexpectedEOF => some true

/-- The failed `Send` a returned value stands for, if it stands for one. -/
def flagOf : Option Error → List Bool
  | some .unexpectedEOF => [false]
  | _ => []

/-- The rejection the handler is returning, if it is returning one. -/
def Handler.rejection : Handler → Option Error
  | .deferCancel e | .deferActive e | .deferHealth e | .returned e => rejectionOf e
  | _ => none

/-- Whether `Receive` was called and, if so, whether it returned a nil error. -/
def Handler.opened : Handler → Option Bool
  | .entry | .enter | .check _ | .setup => none
  | .recv | .send _ | .count => some true
  | .deferCancel e | .deferActive e | .deferHealth e | .returned e => openedOf e

/-- The gauges the handler has incremented when it is at a program point. -/
def Handler.incs : Handler → List String
  | .entry => []
  | _ => ["subscriptionCount"]

/-- The gauges the handler has decremented when it is at a program point. -/
def Handler.decs : Handler → List String
  | .returned _ => ["subscriptionCount"]
  | _ => []

/-- The amounts the handler has added to `activeConnections` when it is at a
program point. -/
def Handler.deltas : Handler → List Int
  | .entry | .enter => []
  | .deferHealth _ | .returned _ => [1, -1]
  | _ => [1]

/-- The envelope the handler has taken from `buffer` and not yet passed to
`Send`. -/
def Handler.inHand : Handler → List Envelope
  | .send data => [data]
  | _ => []

/-- The outcome of the last `Send` when it is not yet followed by an increment
of `egress`: a success about to be counted, or the failure being returned. -/
def Handler.flag : Handler → List Bool
  | .count => [true]
  | .deferCancel e | .deferActive e | .deferHealth e | .returned e => flagOf e
  | _ => []

/-- The envelope the producer has pulled and not yet offered to `buffer`. -/
def Producer.pending : Producer → List Envelope
  | .enqueue e => [e]
  | _ => []

/-- Whether the producer has left its loop. -/
def Producer.done : Producer → Bool
  | .close | .cancel | .exited => true
  | _ => false

/-- Whether the producer has closed `buffer`. -/
def Producer.hasClosed : Producer → Bool
  | .cancel | .exited => true
  | _ => false

/-- Whether the observed `activeConnections` is above the cap. -/
def Call.over (c : Call) : Bool :=
  match c.activeConnections with
  | some v => decide (v > maxConnections)
  | none => false

/-- The rejection the admission and filter checks decide on, if any. -/
def Call.verdict (c : Call) : Option Error :=
  if c.over then some .tooManyConnections
  else if invalidFilter c.r then some .invalidRequest
  else none

/-- Every logged `Send` carries the answer of the stream: the `j`-th logged
call, made with `data`, has the outcome `Send j data`. -/
def Call.Indexed (c : Call) : Prop :=
  ∀ (j : Nat) (p : Envelope × Bool), (sent c.log)[j]? = some p → c.srv.Send j p.1 = p.2

/-- The facts that hold of an invocation in every state an interleaving can
reach, on a server whose receiver is `R`. -/
structure Call.Inv (R : Receiver) (c : Call) : Prop where
  incs : healthIncs c.log = c.pc.incs
  decs : healthDecs c.log = c.pc.decs
  deltas : activeDeltas c.log = c.pc.deltas
  calls : received c.log =
    match c.pc.opened with
    | none => []
    | some ok => [(c.srv.Context, c.r, ok)]
  answer : match c.pc.opened with
    | none => True
    | some true => R.Receive c.srv.Context c.r = some c.rx
    | some false => R.Receive c.srv.Context c.r = none
  idle : c.producer = .idle ↔ c.pc.opened ≠ some true
  observed : c.activeConnections.isSome = c.pc.counted
  admitting : ∀ v, c.pc = .check v → c.activeConnections = some v
  verdict : c.pc.decided = true → c.verdict = c.pc.rejection
  quiet : c.pc.opened ≠ some true → sent c.log = [] ∧ egressDelta c.log = 0
  unborn : c.producer = .idle →
    pulled c.log = [] ∧ droppedDelta c.log = 0 ∧ c.buffer = [] ∧ c.closed = false ∧ c.pulls = 0
  flags : (sent c.log).map Prod.snd = List.replicate (egressDelta c.log) true ++ c.pc.flag
  sends : c.sends = (sent c.log).length
  indexed : c.Indexed
  flow : List.Sublist
    ((sent c.log).map Prod.fst ++ c.pc.inHand ++ c.buffer ++ c.producer.pending)
    (pulledEnvelopes c.log)
  account : (sent c.log).length + c.pc.inHand.length + c.buffer.length
      + c.producer.pending.length + droppedDelta c.log = (pulledEnvelopes c.log).length
  cap : c.buffer.length ≤ bufferCap
  noDrop : (pulledEnvelopes c.log).length ≤ bufferCap → droppedDelta c.log = 0
  results : pulled c.log = (List.range c.pulls).map c.rx
  envelopes : ∀ k, k + (if c.producer.done then 1 else 0) < c.pulls → (c.rx k).isEnvelope = true
  last : c.producer.done = true → c.pulls ≠ 0 ∧ (c.rx (c.pulls - 1)).isEnvelope = false
  closing : c.closed = c.producer.hasClosed
  drained : c.pc.result = some none → c.closed = true ∧ c.buffer = []

/-! ## Counting invocations -/

/-- Whether the handler has added 1 to `activeConnections` and has not yet
added -1: it holds a connection slot. -/
def Handler.holding : Handler → Bool
  | .check _ | .setup | .recv | .send _ | .count | .deferCancel _ | .deferActive _ => true
  | _ => false

/-- Whether the handler has called `Inc` and has not yet called `Dec`. -/
def Handler.registered : Handler → Bool
  | .entry | .returned _ => false
  | _ => true

/-- Whether the handler has passed the check `activeConnections > 500` and
still holds its connection slot. -/
def Handler.admitted (pc : Handler) : Bool :=
  pc.decided && pc.holding && decide (pc.rejection ≠ some .tooManyConnections)

/-- Whether the invocation holds a connection slot for which it observed a
value of `activeConnections` of at most `b`. -/
def Call.holdsAtMost (b : Int) (c : Call) : Bool :=
  c.pc.holding &&
    match c.activeConnections with
    | some v => decide (v ≤ b)
    | none => false

/-- The bookkeeping of the two shared counters on a server that started with
`activeConnections = a` and a `subscriptionCount` gauge of `g`: each counter is
its initial value plus the number of invocations between its increment and its
decrement, and for every `m` at most `m` invocations hold a slot for which
they observed a value of at most `a + m`. -/
def System.Slots (a g : Int) (σ : System) : Prop :=
  σ.server.activeConnections = a + (σ.calls.countP fun c => c.pc.holding) ∧
  σ.server.health.gauge "subscriptionCount" = g + (σ.calls.countP fun c => c.pc.registered) ∧
  ∀ m : Nat, σ.calls.countP (Call.holdsAtMost (a + m)) ≤ m

/-! ## Running one invocation to its end -/

/-- The schedule of `n` rounds in which the producer and then the handler of
the `i`-th invocation take a step. -/
def drive (i : Nat) : Nat → List Action
  | 0 => []
  | n + 1 => .step i .producer :: .step i .handler :: drive i n

/-- A bound on the steps the handler still takes by itself, when `rx` ends at
its call number `N`. -/
def Handler.work (N : Nat) : Handler → Nat
  | .entry => 5 * N + 11
  | .enter => 5 * N + 10
  | .check _ => 5 * N + 9
  | .setup => 5 * N + 8
  | .send _ => 6
  | .count => 5
  | .recv => 4
  | .deferCancel _ => 3
  | .deferActive _ => 2
  | .deferHealth _ => 1
  | .returned _ => 0

/-- A bound on the steps the producer still takes, and on those its future
envelopes cost the handler, when `rx` ends at its call number `N` and was
called `pulls` times. -/
def Producer.work (N pulls : Nat) : Producer → Nat
  | .idle => 0
  | .pull => 5 * (N - pulls) + 3
  | .enqueue _ => 5 * (N - pulls) + 7
  | .close => 2
  | .cancel => 1
  | .exited => 0

/-- A bound on the steps the goroutines of an invocation still take before the
handler returns; every envelope in `buffer` costs the handler three steps. -/
def Call.work (N : Nat) (c : Call) : Nat :=
  c.pc.work N + c.producer.work N c.pulls + 3 * c.buffer.length

/-- How often a schedule lets the handler of the `i`-th invocation take a
step. -/
def handlerSteps (i : Nat) : List Action → Nat
  | [] => 0
  | .step j .handler :: as => (if j = i then 1 else 0) + handlerSteps i as
  | _ :: as => handlerSteps i as

/-- The outcome of the two checks of lines 67-75 for an observed value `v` of
`activeConnections` and a request `r`. -/
def checks (v : Int) (r : EgressRequest) : Option Error :=
  if v > maxConnections then some .tooManyConnections
  else if invalidFilter r then some .invalidRequest
  else none

/-- The number of steps after which the handler has returned the error `e`,
when it is about to reject with `e` or is already on its way out with `e`. -/
def Call.exitRank (e : Error) (c : Call) : Option Nat :=
  match c.pc with
  | .check v => if checks v c.r = some e then some 3 else none
  | .deferCancel err => if err = some e then some 3 else none
  | .deferActive err => if err = some e then some 2 else none
  | .deferHealth err => if err = some e then some 1 else none
  | .returned err => if err = some e then some 0 else none
  | _ => none

/-- The number of steps after which the handler has called `Receive`, for the
invocation of stream context `ctx` and request `r`, once it has observed
`activeConnections`. -/
def Call.openRank (ctx : Nat) (r : EgressRequest) (c : Call) : Option Nat :=
  if c.srv.Context = ctx ∧ c.r = r then
    match c.pc with
    | .check v => if checks v c.r = none then some 2 else none
    | .setup => some 1
    | pc => if pc.opened.isSome then some 0 else none
  else none

/-- The envelope of a pull result whose error is nil. -/
def Pull.envelope? : Pull → Option Envelope
  | .envelope e => some e
  | _ => none

/-- The total the `Alert` calls of a schedule add to the `dropped` counter. -/
def alerted : List Action → Nat
  | [] => 0
  | .alert missed :: as => uint64 missed + alerted as
  | _ :: as => alerted as

/-! ## Concrete scenarios -/

/-- A receiver whose pull function yields the envelopes 10, 11, 12 and then
`io.EOF`. -/
def demoReceiver : Receiver :=
  { Receive := fun _ _ => some fun k => if k < 3 then .envelope (10 + k) else .eof }

/-- A stream on which every `Send` succeeds. -/
def demoStream : Egress_ReceiverServer := { Context := 0, Send := fun _ _ => true }

/-- A stream on which the first two `Send` calls succeed and the others fail. -/
def brokenStream : Egress_ReceiverServer := { Context := 0, Send := fun k _ => decide (k < 2) }

/-- A request without a filter. -/
def demoRequest : EgressRequest := { ShardId := "shard", Filter := none }

/-- A request whose filter has a message type and an empty source id. -/
def badRequest : EgressRequest :=
  { ShardId := "shard", Filter := some { SourceId := "", Message := some .log } }

/-- A new server over `demoReceiver`. -/
def demoServer : Server := NewServer demoReceiver { gauge := fun _ => 0 } false

/-- The schedule in which `n` invocations start one after the other and each
runs its first two statements, `Inc` and `atomic.AddInt64`, and no more. -/
def flood (r : EgressRequest) (srv : Egress_ReceiverServer) : Nat → List Action
  | 0 => []
  | n + 1 => flood r srv n ++ [.call r srv, .step n .handler, .step n .handler]

/-- The state of the `j`-th invocation after `flood`: it has observed
`activeConnections = j + 1` and is about to run the admission check. -/
def waiting (r : EgressRequest) (srv : Egress_ReceiverServer) (j : Nat) : Call :=
  { Call.new r srv with
    pc := .check (j + 1)
    activeConnections := some (j + 1)
    log := [.healthInc "subscriptionCount", .addActive 1] }

/-- The schedule of one invocation on `demoStream`: it runs up to the admission
check, then its producer and handler alternate twenty times. -/
def cleanRun : List Action :=
  flood demoRequest demoStream 1 ++ drive 0 20

/-- The schedule of one invocation on `brokenStream`: it runs up to the start of
the consumer loop, then its producer and handler alternate twelve times. -/
def brokenRun : List Action :=
  .call demoRequest brokenStream ::
    .step 0 .handler :: .step 0 .handler :: .step 0 .handler :: .step 0 .handler :: drive 0 12

/-- The invocation at the end of `brokenRun`. -/
def brokenCall : Call :=
  ((System.boot demoServer).run brokenRun).calls.getD 0 (Call.new demoRequest brokenStream)

/-- A receiver whose `Receive` always returns an error. -/
def closedReceiver : Receiver := { Receive := fun _ _ => none }

/-- A new server over `closedReceiver`. -/
def closedServer : Server := NewServer closedReceiver { gauge := fun _ => 0 } false

/-- The schedule of one invocation on `closedServer` whose handler takes the
seven steps that lead it through the failing `Receive` to its return. -/
def setupRun : List Action :=
  [.call demoRequest demoStream, .step 0 .handler, .step 0 .handler, .step 0 .handler,
    .step 0 .handler, .step 0 .handler, .step 0 .handler, .step 0 .handler]

/-- The invocation at the end of `setupRun`. -/
def setupCall : Call :=
  ((System.boot closedServer).run setupRun).calls.getD 0 (Call.new demoRequest demoStream)

/-- The schedule of one invocation on `demoServer` that runs up to the start
of the consumer loop and whose producer then pulls its first envelope. -/
def pulledRun : List Action :=
  [.call demoRequest demoStream, .step 0 .handler, .step 0 .handler, .step 0 .handler,
    .step 0 .handler, .step 0 .producer]

/-- The invocation at the end of `pulledRun`. -/
def pulledCall : Call :=
  ((System.boot demoServer).run pulledRun).calls.getD 0 (Call.new demoRequest demoStream)

/-! # Theorems -/

/-! ## The log under one more event -/

@[simp] theorem sent_snoc (log : List Event) (ev : Event) :
    sent (log ++ [ev]) = sent log ++ (Event.sent ev).toList := by
  cases h : Event.sent ev <;> simp [sent, List.filterMap_append, h]

@[simp] theorem pulled_snoc (log : List Event) (ev : Event) :
    pulled (log ++ [ev]) = pulled log ++ (Event.pulled ev).toList := by
  cases h : Event.pulled ev <;> simp [pulled, List.filterMap_append, h]

@[simp] theorem pulledEnvelopes_snoc (log : List Event) (ev : Event) :
    pulledEnvelopes (log ++ [ev]) = pulledEnvelopes log ++ (Event.pulledEnvelope ev).toList := by
  cases h : Event.pulledEnvelope ev <;> simp [pulledEnvelopes, List.filterMap_append, h]

@[simp] theorem received_snoc (log : List Event) (ev : Event) :
    received (log ++ [ev]) = received log ++ (Event.received ev).toList := by
  cases h : Event.received ev <;> simp [received, List.filterMap_append, h]

@[simp] theorem activeDeltas_snoc (log : List Event) (ev : Event) :
    activeDeltas (log ++ [ev]) = activeDeltas log ++ (Event.activeDelta ev).toList := by
  cases h : Event.activeDelta ev <;> simp [activeDeltas, List.filterMap_append, h]

@[simp] theorem healthIncs_snoc (log : List Event) (ev : Event) :
    healthIncs (log ++ [ev]) = healthIncs log ++ (Event.healthInc? ev).toList := by
  cases h : Event.healthInc? ev <;> simp [healthIncs, List.filterMap_append, h]

@[simp] theorem healthDecs_snoc (log : List Event) (ev : Event) :
    healthDecs (log ++ [ev]) = healthDecs log ++ (Event.healthDec? ev).toList := by
  cases h : Event.healthDec? ev <;> simp [healthDecs, List.filterMap_append, h]

@[simp] theorem egressDelta_snoc (log : List Event) (ev : Event) :
    egressDelta (log ++ [ev]) = egressDelta log + Event.egressDelta ev := by
  simp [egressDelta]

@[simp] theorem droppedDelta_snoc (log : List Event) (ev : Event) :
    droppedDelta (log ++ [ev]) = droppedDelta log + Event.droppedDelta ev := by
  simp [droppedDelta]

theorem inv_new (R : Receiver) (r : EgressRequest) (srv : Egress_ReceiverServer) :
    (Call.new r srv).Inv R := by
  constructor <;> simp [Call.new, sent, pulled, pulledEnvelopes, received, egressDelta, droppedDelta,
    activeDeltas, healthIncs, healthDecs, Handler.incs, Handler.decs, Handler.deltas,
    Handler.opened, Handler.counted, Handler.decided, Handler.inHand, Handler.flag,
    Producer.pending, Producer.done, Producer.hasClosed, Handler.result, bufferCap,
    Call.Indexed]

theorem replicate_succ_true (n : Nat) :
    List.replicate (n + 1) true = List.replicate n true ++ [true] :=
  List.replicate_succ' n true

theorem indexed_snoc (srv : Egress_ReceiverServer) (l : List (Envelope × Bool))
    (q : Envelope × Bool)
    (h : ∀ (j : Nat) (p : Envelope × Bool), l[j]? = some p → srv.Send j p.1 = p.2)
    (hq : srv.Send l.length q.1 = q.2) :
    ∀ (j : Nat) (p : Envelope × Bool), (l ++ [q])[j]? = some p → srv.Send j p.1 = p.2 := by
  intro j p hp
  rcases Nat.lt_trichotomy j l.length with hlt | heq | hgt
  · rw [List.getElem?_append_left hlt] at hp
    exact h j p hp
  · subst heq
    simp only [List.getElem?_concat_length, Option.some.injEq] at hp
    subst hp
    exact hq
  · have : (l ++ [q])[j]? = none := by
      apply List.getElem?_eq_none
      simp only [List.length_append, List.length_singleton]
      omega
    rw [this] at hp
    simp at hp

theorem indexed_Receiver {s s' : Server} {c c' : Call} (h : c.Indexed)
    (hsends : c.sends = (sent c.log).length) (hs : s.Receiver c = some (s', c')) :
    c'.Indexed := by
  unfold Call.Indexed at h ⊢
  simp only [Server.Receiver] at hs
  split at hs <;> (try split at hs) <;> (try split at hs) <;>
    first
      | (simp only [Option.some.injEq, Prod.mk.injEq] at hs
         obtain ⟨-, rfl⟩ := hs
         first
           | exact h
           | (simpa [Event.sent] using h)
           | (rename_i hsend
              simp only [sent_snoc, Event.sent, Option.toList]
              refine indexed_snoc _ _ _ h ?_
              rw [← hsends]
              first
                | exact hsend
                | exact Bool.eq_false_iff.mpr hsend))
      | exact absurd hs (by simp)

theorem indexed_consumeReceiver {s s' : Server} {c c' : Call} (h : c.Indexed)
    (hs : s.consumeReceiver c = some (s', c')) : c'.Indexed := by
  unfold Call.Indexed at h ⊢
  simp only [Server.consumeReceiver] at hs
  split at hs <;> (try split at hs) <;>
    first
      | (simp only [Option.some.injEq, Prod.mk.injEq] at hs
         obtain ⟨-, rfl⟩ := hs
         first
           | exact h
           | (simpa [Event.sent] using h))
      | exact absurd hs (by simp)

theorem outcomes_of_indexed {c : Call} (h : c.Indexed) :
    ∀ p ∈ sent c.log, ∃ k, c.srv.Send k p.1 = p.2 := by
  intro p hp
  obtain ⟨k, hk, hkp⟩ := List.getElem_of_mem hp
  exact ⟨k, h k p (by rw [List.getElem?_eq_getElem hk, hkp])⟩

set_option maxHeartbeats 4000000 in
theorem inv_Receiver {R : Receiver} {s s' : Server} {c c' : Call} (h : c.Inv R)
    (hR : s.receiver = R) (hs : s.Receiver c = some (s', c')) : c'.Inv R := by
  subst hR
  have hidx := indexed_Receiver h.indexed h.sends hs
  obtain ⟨r, srv, pc, ac, rx, buffer, closed, cancelled, watchdog, producer, pulls, sends, log⟩ := c
  obtain ⟨h1, h2, h3, h4, h5, h6, h7, h8, h9, h10, h11, h12, h13, h14, h15, h16, h17, h18, h19,
    h20, h21, h22, h23⟩ := h
  cases pc
  all_goals simp only [Server.Receiver] at hs
  all_goals try split at hs
  all_goals try split at hs
  all_goals first
    | (simp only [Option.some.injEq, Prod.mk.injEq] at hs; obtain ⟨-, rfl⟩ := hs)
    | (exact absurd hs (by simp))
  all_goals simp [Handler.incs, Handler.decs, Handler.deltas,
        Handler.opened, Handler.counted, Handler.decided, Handler.inHand, Handler.flag,
        Handler.result, Handler.rejection, Call.verdict, Call.over] at *
  all_goals constructor <;> first
    | exact hidx
    | (simp [*, Event.sent, Event.pulled, Event.pulledEnvelope, Event.received,
        Event.egressDelta, Event.droppedDelta, Event.activeDelta, Event.healthInc?, Event.healthDec?,
        Handler.incs, Handler.decs, Handler.deltas,
        Handler.opened, Handler.counted, Handler.decided, Handler.inHand, Handler.flag,
        Handler.result, Handler.rejection, Call.verdict, Call.over, openedOf, flagOf, rejectionOf,
        Producer.pending, Producer.done, Producer.hasClosed, replicate_succ_true]; done)
    | (simp_all [Event.sent, Event.pulled, Event.pulledEnvelope, Event.received,
        Event.egressDelta, Event.droppedDelta, Event.activeDelta, Event.healthInc?, Event.healthDec?,
        Handler.incs, Handler.decs, Handler.deltas,
        Handler.opened, Handler.counted, Handler.decided, Handler.inHand, Handler.flag,
        Handler.result, Handler.rejection, Call.verdict, Call.over, openedOf, flagOf, rejectionOf,
        Producer.pending, Producer.done, Producer.hasClosed, replicate_succ_true]; done)
    | (simp_all [Event.sent, Event.pulled, Event.pulledEnvelope, Event.received,
        Event.egressDelta, Event.droppedDelta, Event.activeDelta, Event.healthInc?, Event.healthDec?,
        Handler.incs, Handler.decs, Handler.deltas,
        Handler.opened, Handler.counted, Handler.decided, Handler.inHand, Handler.flag,
        Handler.result, Handler.rejection, Call.verdict, Call.over, openedOf, flagOf, rejectionOf,
        Producer.pending, Producer.done, Producer.hasClosed, replicate_succ_true]; omega)

set_option maxHeartbeats 4000000 in
theorem inv_consumeReceiver {R : Receiver} {s s' : Server} {c c' : Call} (h : c.Inv R)
    (hs : s.consumeReceiver c = some (s', c')) : c'.Inv R := by
  have hidx := indexed_consumeReceiver h.indexed hs
  obtain ⟨r, srv, pc, ac, rx, buffer, closed, cancelled, watchdog, producer, pulls, sends, log⟩ := c
  obtain ⟨h1, h2, h3, h4, h5, h6, h7, h8, h9, h10, h11, h12, h13, h14, h15, h16, h17, h18, h19,
    h20, h21, h22, h23⟩ := h
  cases producer
  all_goals simp only [Server.consumeReceiver] at hs
  all_goals try split at hs
  all_goals first
    | (simp only [Option.some.injEq, Prod.mk.injEq] at hs; obtain ⟨-, rfl⟩ := hs)
    | (exact absurd hs (by simp))
  all_goals simp [Producer.pending, Producer.done, Producer.hasClosed, Call.verdict, Call.over] at *
  all_goals constructor <;> first
    | exact hidx
    | (simp [*, Event.sent, Event.pulled, Event.pulledEnvelope, Event.received,
        Event.egressDelta, Event.droppedDelta, Event.activeDelta, Event.healthInc?, Event.healthDec?,
        Call.verdict, Call.over, 
        Producer.pending, Producer.done, Producer.hasClosed, List.range_succ, Pull.isEnvelope]; done)
    | (simp_all [Event.sent, Event.pulled, Event.pulledEnvelope, Event.received,
        Event.egressDelta, Event.droppedDelta, Event.activeDelta, Event.healthInc?, Event.healthDec?,
        Call.verdict, Call.over,
        Producer.pending, Producer.done, Producer.hasClosed, List.range_succ, Pull.isEnvelope]; done)
    | (simp_all [Event.sent, Event.pulled, Event.pulledEnvelope, Event.received,
        Event.egressDelta, Event.droppedDelta, Event.activeDelta, Event.healthInc?, Event.healthDec?,
        Call.verdict, Call.over, 
        Producer.pending, Producer.done, Producer.hasClosed, List.range_succ, Pull.isEnvelope]; omega)
    | skip
  case mk.mk.pull.h_1.intro.flow =>
    have h := h15.append (List.Sublist.refl [‹Envelope›])
    simpa [Event.pulledEnvelope, Producer.pending, List.append_assoc] using h
  case mk.mk.pull.h_1.intro.envelopes =>
    intro k hk
    simp [Producer.done] at hk
    rcases Nat.lt_succ_iff_lt_or_eq.mp hk with hk | rfl
    · exact h20 k hk
    · simp [*, Pull.isEnvelope]
  case mk.mk.enqueue.isFalse.intro.flow =>
    simp only [pulledEnvelopes_snoc, sent_snoc, Event.pulledEnvelope, Event.sent, Producer.pending,
      Option.toList, List.append_nil]
    refine List.Sublist.trans ?_ h15
    simp

/-! ## The invariant in every reachable state -/

theorem inv_watchdog {R : Receiver} {s s' : Server} {c c' : Call} (h : c.Inv R)
    (hs : s.watchdog c = some (s', c')) : c'.Inv R := by
  unfold Server.watchdog at hs
  split at hs
  · simp only [Option.some.injEq, Prod.mk.injEq] at hs
    obtain ⟨-, rfl⟩ := hs
    obtain ⟨h1, h2, h3, h4, h5, h6, h7, h8, h9, h10, h11, h12, h13, h14, h15, h16, h17, h18, h19,
      h20, h21, h22, h23⟩ := h
    exact ⟨h1, h2, h3, h4, h5, h6, h7, h8, h9, h10, h11, h12, h13, h14, h15, h16, h17, h18, h19,
      h20, h21, h22, h23⟩
  · exact absurd hs (by simp)

theorem inv_cancelled {R : Receiver} {c : Call} (h : c.Inv R) :
    ({ c with cancelled := true } : Call).Inv R := by
  obtain ⟨h1, h2, h3, h4, h5, h6, h7, h8, h9, h10, h11, h12, h13, h14, h15, h16, h17, h18, h19,
    h20, h21, h22, h23⟩ := h
  exact ⟨h1, h2, h3, h4, h5, h6, h7, h8, h9, h10, h11, h12, h13, h14, h15, h16, h17, h18, h19,
    h20, h21, h22, h23⟩

theorem inv_step {R : Receiver} {s s' : Server} {c c' : Call} {t : Thread} (h : c.Inv R)
    (hR : s.receiver = R) (hs : c.step t s = some (s', c')) : c'.Inv R := by
  cases t
  · exact inv_Receiver h hR hs
  · exact inv_consumeReceiver h hs
  · exact inv_watchdog h hs

theorem receiver_step {s s' : Server} {c c' : Call} {t : Thread}
    (hs : c.step t s = some (s', c')) : s'.receiver = s.receiver := by
  cases t
  · simp only [Call.step, Server.Receiver] at hs
    split at hs <;> (try split at hs) <;> (try split at hs) <;>
      first
        | (simp only [Option.some.injEq, Prod.mk.injEq] at hs; obtain ⟨rfl, -⟩ := hs; rfl)
        | exact absurd hs (by simp)
  · simp only [Call.step, Server.consumeReceiver] at hs
    split at hs <;> (try split at hs) <;>
      first
        | (simp only [Option.some.injEq, Prod.mk.injEq] at hs; obtain ⟨rfl, -⟩ := hs; rfl)
        | exact absurd hs (by simp)
  · simp only [Call.step, Server.watchdog] at hs
    split at hs <;>
      first
        | (simp only [Option.some.injEq, Prod.mk.injEq] at hs; obtain ⟨rfl, -⟩ := hs; rfl)
        | exact absurd hs (by simp)

theorem act_inv {R : Receiver} (σ : System) (a : Action) (hR : σ.server.receiver = R)
    (h : ∀ c ∈ σ.calls, c.Inv R) :
    (σ.act a).server.receiver = R ∧ ∀ c ∈ (σ.act a).calls, c.Inv R := by
  cases a with
  | call r srv =>
    refine ⟨hR, fun c hc => ?_⟩
    simp only [System.act, List.mem_append, List.mem_singleton] at hc
    rcases hc with hc | rfl
    · exact h c hc
    · exact inv_new R r srv
  | step i t =>
    simp only [System.act]
    split
    · exact ⟨hR, h⟩
    · rename_i c hc
      split
      · exact ⟨hR, h⟩
      · rename_i s' c' hs
        refine ⟨(receiver_step hs).trans hR, fun d hd => ?_⟩
        rcases List.mem_or_eq_of_mem_set hd with hd | rfl
        · exact h d hd
        · exact inv_step (h c (List.getElem?_mem hc)) hR hs
  | alert missed => exact ⟨hR, h⟩
  | shutdown => exact ⟨hR, h⟩
  | hangup i =>
    simp only [System.act]
    split
    · exact ⟨hR, h⟩
    · rename_i c hc
      refine ⟨hR, fun d hd => ?_⟩
      rcases List.mem_or_eq_of_mem_set hd with hd | rfl
      · exact h d hd
      · exact inv_cancelled (h c (List.getElem?_mem hc))

theorem run_inv {R : Receiver} (as : List Action) (σ : System) (hR : σ.server.receiver = R)
    (h : ∀ c ∈ σ.calls, c.Inv R) :
    (σ.run as).server.receiver = R ∧ ∀ c ∈ (σ.run as).calls, c.Inv R := by
  induction as generalizing σ with
  | nil => exact ⟨hR, h⟩
  | cons a as ih =>
    obtain ⟨h1, h2⟩ := act_inv σ a hR h
    exact ih (σ.act a) h1 h2

theorem boot_inv (s : Server) (as : List Action) :
    ∀ c ∈ ((System.boot s).run as).calls, c.Inv s.receiver :=
  (run_inv as (System.boot s) rfl (by simp [System.boot])).2

/-! ## The shared counters -/

theorem countP_set_balance {α : Type} (p : α → Bool) (l : List α) (i : Nat) (c c' : α)
    (hc : l[i]? = some c) :
    (l.set i c').countP p + (if p c then 1 else 0) = l.countP p + (if p c' then 1 else 0) := by
  induction l generalizing i with
  | nil => simp at hc
  | cons x l ih =>
    cases i with
    | zero =>
      simp only [List.getElem?_cons_zero, Option.some.injEq] at hc
      subst hc
      simp only [List.set_cons_zero, List.countP_cons]
      omega
    | succ i =>
      simp only [List.getElem?_cons_succ] at hc
      have := ih i hc
      simp only [List.set_cons_succ, List.countP_cons]
      omega

theorem step_slots {s s' : Server} {c c' : Call} {t : Thread}
    (hs : c.step t s = some (s', c')) :
    s'.activeConnections + (if c.pc.holding then 1 else 0)
      = s.activeConnections + (if c'.pc.holding then 1 else 0) ∧
    s'.health.gauge "subscriptionCount" + (if c.pc.registered then 1 else 0)
      = s.health.gauge "subscriptionCount" + (if c'.pc.registered then 1 else 0) ∧
    ((∀ b, c'.holdsAtMost b = true → c.holdsAtMost b = true) ∨
      (c.pc.holding = false ∧ c'.pc.holding = true ∧
        c'.activeConnections = some (s.activeConnections + 1))) := by
  obtain ⟨r, srv, pc, ac, rx, buffer, closed, cancelled, watchdog, producer, pulls, sends, log⟩ := c
  cases t
  · simp only [Call.step, Server.Receiver] at hs
    cases pc
    all_goals simp only at hs
    all_goals try split at hs
    all_goals try split at hs
    all_goals first
      | (simp only [Option.some.injEq, Prod.mk.injEq] at hs; obtain ⟨rfl, rfl⟩ := hs)
      | (exact absurd hs (by simp))
    all_goals simp [Handler.holding, Handler.registered, Call.holdsAtMost, HealthRegistrar.Inc,
      HealthRegistrar.Dec]
  · simp only [Call.step, Server.consumeReceiver] at hs
    cases producer
    all_goals simp only at hs
    all_goals try split at hs
    all_goals first
      | (simp only [Option.some.injEq, Prod.mk.injEq] at hs; obtain ⟨rfl, rfl⟩ := hs)
      | (exact absurd hs (by simp))
    all_goals simp [Call.holdsAtMost]
  · simp only [Call.step, Server.watchdog] at hs
    split at hs
    · simp only [Option.some.injEq, Prod.mk.injEq] at hs
      obtain ⟨rfl, rfl⟩ := hs
      simp [Call.holdsAtMost]
    · exact absurd hs (by simp)

theorem act_slots {a g : Int} (σ : System) (x : Action) (h : σ.Slots a g) :
    (σ.act x).Slots a g := by
  obtain ⟨h1, h2, h3⟩ := h
  cases x with
  | call r srv =>
    refine ⟨?_, ?_, fun m => ?_⟩
    · simpa [System.act, Call.new, Handler.holding] using h1
    · simpa [System.act, Call.new, Handler.registered] using h2
    · simpa [System.act, Call.new, Handler.holding, Call.holdsAtMost] using h3 m
  | step i t =>
    simp only [System.act]
    split
    · exact ⟨h1, h2, h3⟩
    · rename_i c hc
      split
      · exact ⟨h1, h2, h3⟩
      · rename_i s' c' hs
        obtain ⟨k1, k2, k3⟩ := step_slots hs
        have e1 := countP_set_balance (fun c => c.pc.holding) σ.calls i c c' hc
        have e2 := countP_set_balance (fun c => c.pc.registered) σ.calls i c c' hc
        refine ⟨?_, ?_, fun m => ?_⟩
        · dsimp only at e1 ⊢
          cases hA : c.pc.holding <;> cases hB : c'.pc.holding <;>
            simp [hA, hB] at k1 e1 <;> omega
        · dsimp only at e2 ⊢
          cases hA : c.pc.registered <;> cases hB : c'.pc.registered <;>
            simp [hA, hB] at k2 e2 <;> omega
        · have e3 := countP_set_balance (Call.holdsAtMost (a + m)) σ.calls i c c' hc
          have h3m := h3 m
          simp only at e3 ⊢
          rcases k3 with k3 | ⟨k3, k4, k5⟩
          · have := k3 (a + m)
            by_cases hq : c'.holdsAtMost (a + m) = true
            · have := this hq
              simp only [hq, this, if_true] at e3
              omega
            · simp only [hq] at e3
              split at e3 <;> simp at e3 <;> omega
          · have hle : σ.calls.countP (Call.holdsAtMost (a + m))
                ≤ σ.calls.countP fun c => c.pc.holding := by
              apply List.countP_mono_left
              intro d _ hd
              simp only [Call.holdsAtMost, Bool.and_eq_true] at hd
              exact hd.1
            have hc0 : c.holdsAtMost (a + m) = false := by
              simp [Call.holdsAtMost, k3]
            by_cases hq : c'.holdsAtMost (a + m) = true
            · have hv : σ.server.activeConnections + 1 ≤ a + m := by
                simpa [Call.holdsAtMost, k4, k5] using hq
              simp only [hq, hc0, if_true] at e3
              simp at e3
              omega
            · simp only [hq, hc0] at e3
              simp at e3
              omega
  | alert missed => exact ⟨h1, h2, h3⟩
  | shutdown => exact ⟨h1, h2, h3⟩
  | hangup i =>
    simp only [System.act]
    split
    · exact ⟨h1, h2, h3⟩
    · rename_i c hc
      have e1 := countP_set_balance (fun c => c.pc.holding) σ.calls i c
        { c with cancelled := true } hc
      have e2 := countP_set_balance (fun c => c.pc.registered) σ.calls i c
        { c with cancelled := true } hc
      refine ⟨?_, ?_, fun m => ?_⟩
      · dsimp only at e1 ⊢
        omega
      · dsimp only at e2 ⊢
        omega
      · have e3 := countP_set_balance (Call.holdsAtMost (a + m)) σ.calls i c
          { c with cancelled := true } hc
        have h3m := h3 m
        have : ({ c with cancelled := true } : Call).holdsAtMost (a + m) = c.holdsAtMost (a + m) := rfl
        rw [this] at e3
        simp only at e3 ⊢
        omega

theorem run_slots {a g : Int} (as : List Action) (σ : System) (h : σ.Slots a g) :
    (σ.run as).Slots a g := by
  induction as generalizing σ with
  | nil => exact h
  | cons x as ih => exact ih (σ.act x) (act_slots σ x h)

theorem boot_slots (s : Server) (as : List Action) :
    ((System.boot s).run as).Slots s.activeConnections (s.health.gauge "subscriptionCount") :=
  run_slots as (System.boot s) (by simp [System.Slots, System.boot])

/-! ## Every step is progress -/

theorem work_Receiver {N : Nat} {s s' : Server} {c c' : Call}
    (hs : s.Receiver c = some (s', c')) : c'.work N < c.work N := by
  obtain ⟨r, srv, pc, ac, rx, buffer, closed, cancelled, watchdog, producer, pulls, sends, log⟩ := c
  simp only [Server.Receiver] at hs
  cases pc
  all_goals simp only at hs
  all_goals try split at hs
  all_goals try split at hs
  all_goals first
    | (simp only [Option.some.injEq, Prod.mk.injEq] at hs; obtain ⟨-, rfl⟩ := hs)
    | (exact absurd hs (by simp))
  all_goals simp only [Call.work, Handler.work, Producer.work, List.length_cons]
  all_goals omega

theorem work_consumeReceiver {R : Receiver} {N : Nat} {s s' : Server} {c c' : Call}
    (h : c.Inv R) (hN : (c.rx N).isEnvelope = false)
    (hs : s.consumeReceiver c = some (s', c')) : c'.work N < c.work N := by
  have henv := h.envelopes
  obtain ⟨r, srv, pc, ac, rx, buffer, closed, cancelled, watchdog, producer, pulls, sends, log⟩ := c
  simp only [Server.consumeReceiver] at hs
  cases producer
  all_goals simp only at hs
  all_goals try split at hs
  all_goals first
    | (simp only [Option.some.injEq, Prod.mk.injEq] at hs; obtain ⟨-, rfl⟩ := hs)
    | (exact absurd hs (by simp))
  all_goals simp only [Call.work, Handler.work, Producer.work, List.length_append,
    List.length_singleton]
  case mk.pull.h_1.intro =>
    rename_i e heq
    have hlt : pulls < N := by
      rcases Nat.lt_trichotomy pulls N with hlt | heq' | hgt
      · exact hlt
      · subst heq'
        simp [heq, Pull.isEnvelope] at hN
      · have := henv N (by simpa [Producer.done] using hgt)
        simp [hN] at this
    omega
  all_goals omega

theorem progress {R : Receiver} {s : Server} {c : Call} (h : c.Inv R)
    (hr : ∀ e, c.pc ≠ .returned e) :
    (s.Receiver c).isSome = true ∨ (s.consumeReceiver c).isSome = true := by
  have h6 := h.idle
  have h22 := h.closing
  obtain ⟨r, srv, pc, ac, rx, buffer, closed, cancelled, watchdog, producer, pulls, sends, log⟩ := c
  cases pc
  case returned e => exact absurd rfl (hr e)
  case recv =>
    cases buffer with
    | cons data rest => left; simp [Server.Receiver]
    | nil =>
      cases closed with
      | true => left; simp [Server.Receiver]
      | false =>
        right
        cases producer <;>
          simp_all [Server.consumeReceiver, Handler.opened, Producer.hasClosed]
        all_goals split <;> simp
  all_goals
    left
    simp only [Server.Receiver]
    repeat' split
    all_goals simp

/-! ## Driving an invocation to its return -/

theorem step_args {s s' : Server} {c c' : Call} {t : Thread}
    (hs : c.step t s = some (s', c')) : c'.r = c.r ∧ c'.srv = c.srv := by
  cases t
  · simp only [Call.step, Server.Receiver] at hs
    split at hs <;> (try split at hs) <;> (try split at hs) <;>
      first
        | (simp only [Option.some.injEq, Prod.mk.injEq] at hs; obtain ⟨-, rfl⟩ := hs; exact ⟨rfl, rfl⟩)
        | exact absurd hs (by simp)
  · simp only [Call.step, Server.consumeReceiver] at hs
    split at hs <;> (try split at hs) <;>
      first
        | (simp only [Option.some.injEq, Prod.mk.injEq] at hs; obtain ⟨-, rfl⟩ := hs; exact ⟨rfl, rfl⟩)
        | exact absurd hs (by simp)
  · simp only [Call.step, Server.watchdog] at hs
    split at hs <;>
      first
        | (simp only [Option.some.injEq, Prod.mk.injEq] at hs; obtain ⟨-, rfl⟩ := hs; exact ⟨rfl, rfl⟩)
        | exact absurd hs (by simp)

theorem step_observed {R : Receiver} {s s' : Server} {c c' : Call} {t : Thread} (h : c.Inv R)
    (hs : c.step t s = some (s', c')) (v : Int) (hv : c.activeConnections = some v) :
    c'.activeConnections = some v := by
  have hobs := h.observed
  cases t
  · obtain ⟨r, srv, pc, ac, rx, buffer, closed, cancelled, watchdog, producer, pulls, sends,
      log⟩ := c
    simp only [Call.step, Server.Receiver] at hs
    cases pc
    case enter =>
      dsimp only at hv hobs
      simp [Handler.counted, hv] at hobs
    all_goals simp only at hs
    all_goals try split at hs
    all_goals try split at hs
    all_goals first
      | (simp only [Option.some.injEq, Prod.mk.injEq] at hs; obtain ⟨-, rfl⟩ := hs; exact hv)
      | (exact absurd hs (by simp))
  · simp only [Call.step, Server.consumeReceiver] at hs
    split at hs <;> (try split at hs) <;>
      first
        | (simp only [Option.some.injEq, Prod.mk.injEq] at hs; obtain ⟨-, rfl⟩ := hs; exact hv)
        | exact absurd hs (by simp)
  · simp only [Call.step, Server.watchdog] at hs
    split at hs <;>
      first
        | (simp only [Option.some.injEq, Prod.mk.injEq] at hs; obtain ⟨-, rfl⟩ := hs; exact hv)
        | exact absurd hs (by simp)

theorem act_step_eq (σ : System) (i : Nat) (t : Thread) (c : Call) (hc : σ.calls[i]? = some c) :
    (c.step t σ.server = none ∧ σ.act (.step i t) = σ) ∨
    ∃ s' c', c.step t σ.server = some (s', c') ∧
      σ.act (.step i t) = { server := s', calls := σ.calls.set i c' } ∧
      (σ.calls.set i c')[i]? = some c' := by
  cases hs : c.step t σ.server with
  | none => left; simp [System.act, hc, hs]
  | some p =>
    obtain ⟨s', c'⟩ := p
    right
    refine ⟨s', c', rfl, by simp [System.act, hc, hs], ?_⟩
    obtain ⟨hi, -⟩ := List.getElem?_eq_some.mp hc
    simp [List.getElem?_set, hi]

theorem act_step_work {R : Receiver} {N : Nat} (σ : System) (i : Nat) (t : Thread) (c : Call)
    (ht : t ≠ .watchdog) (hc : σ.calls[i]? = some c) (h : c.Inv R)
    (hN : ∀ rx, R.Receive c.srv.Context c.r = some rx → (rx N).isEnvelope = false) :
    ∃ c1, (σ.act (.step i t)).calls[i]? = some c1 ∧ c1.r = c.r ∧ c1.srv = c.srv ∧
      (∀ v, c.activeConnections = some v → c1.activeConnections = some v) ∧
      ((c.step t σ.server).isSome = true → c1.work N < c.work N) ∧
      (c.step t σ.server = none → σ.act (.step i t) = σ ∧ c1 = c) := by
  rcases act_step_eq σ i t c hc with ⟨hs, he⟩ | ⟨s', c', hs, he, hg⟩
  · exact ⟨c, by rw [he]; exact hc, rfl, rfl, fun _ hv => hv, by simp [hs], fun _ => ⟨he, rfl⟩⟩
  · refine ⟨c', by rw [he]; exact hg, (step_args hs).1, (step_args hs).2,
      step_observed h hs, fun _ => ?_, fun hn => by simp [hs] at hn⟩
    cases t with
    | handler => exact work_Receiver hs
    | producer =>
      refine work_consumeReceiver h ?_ hs
      have hidle : c.producer ≠ .idle := by
        intro hp
        simp [Call.step, Server.consumeReceiver, hp] at hs
      have hopen : c.pc.opened = some true := by
        by_contra hne
        exact hidle (h.idle.mpr hne)
      have hans := h.answer
      rw [hopen] at hans
      exact hN c.rx hans
    | watchdog => exact absurd rfl ht

theorem drive_returns {R : Receiver} {N : Nat} (w : Nat) :
    ∀ (σ : System) (i : Nat) (c : Call), σ.server.receiver = R → (∀ d ∈ σ.calls, d.Inv R) →
      σ.calls[i]? = some c → c.work N ≤ w →
      (∀ rx, R.Receive c.srv.Context c.r = some rx → (rx N).isEnvelope = false) →
      ∃ n c' e, (σ.run (drive i n)).calls[i]? = some c' ∧ c'.pc = .returned e ∧
        c'.r = c.r ∧ c'.srv = c.srv ∧
        (∀ v, c.activeConnections = some v → c'.activeConnections = some v) := by
  induction w with
  | zero =>
    intro σ i c hR hinv hc hw hN
    by_cases hret : ∃ e, c.pc = .returned e
    · obtain ⟨e, he⟩ := hret
      exact ⟨0, c, e, hc, he, rfl, rfl, fun _ hv => hv⟩
    · exfalso
      have hne : ∀ e, c.pc ≠ .returned e := fun e he => hret ⟨e, he⟩
      have hpos : 0 < c.work N := by
        obtain ⟨r, srv, pc, ac, rx, buffer, closed, cancelled, watchdog, producer, pulls, sends,
          log⟩ := c
        cases pc <;> simp [Call.work, Handler.work] at hne ⊢
      omega
  | succ w ih =>
    intro σ i c hR hinv hc hw hN
    by_cases hret : ∃ e, c.pc = .returned e
    · obtain ⟨e, he⟩ := hret
      exact ⟨0, c, e, hc, he, rfl, rfl, fun _ hv => hv⟩
    · have hne : ∀ e, c.pc ≠ .returned e := fun e he => hret ⟨e, he⟩
      have hcinv := hinv c (List.getElem?_mem hc)
      obtain ⟨c1, hc1, hr1, hs1, ho1, hlt1, hno1⟩ :=
        act_step_work (N := N) σ i .producer c (by decide) hc hcinv hN
      obtain ⟨hR1, hinv1⟩ := act_inv σ (.step i .producer) hR hinv
      have hc1inv := hinv1 c1 (List.getElem?_mem hc1)
      have hN1 : ∀ rx, R.Receive c1.srv.Context c1.r = some rx → (rx N).isEnvelope = false := by
        rw [hr1, hs1]; exact hN
      obtain ⟨c2, hc2, hr2, hs2, ho2, hlt2, hno2⟩ :=
        act_step_work (N := N) (σ.act (.step i .producer)) i .handler c1 (by decide) hc1
          hc1inv hN1
      obtain ⟨hR2, hinv2⟩ := act_inv (σ.act (.step i .producer)) (.step i .handler) hR1 hinv1
      have hN2 : ∀ rx, R.Receive c2.srv.Context c2.r = some rx → (rx N).isEnvelope = false := by
        rw [hr2, hs2]; exact hN1
      have hwork : c2.work N < c.work N := by
        cases hp : c.step .producer σ.server with
        | some p =>
          have h1 := hlt1 (by simp [hp])
          cases hh : c1.step .handler (σ.act (.step i .producer)).server with
          | some q => have h2 := hlt2 (by simp [hh]); omega
          | none => obtain ⟨-, rfl⟩ := hno2 hh; exact h1
        | none =>
          obtain ⟨hσ, rfl⟩ := hno1 hp
          rw [hσ] at hlt2 hno2
          rcases progress (s := σ.server) hcinv hne with hh | hh
          · exact hlt2 hh
          · simp [Call.step] at hp
            simp [hp] at hh
      obtain ⟨n, c', e, hfin, he, hr3, hs3, ho3⟩ :=
        ih ((σ.act (.step i .producer)).act (.step i .handler)) i c2 hR2 hinv2 hc2 (by omega) hN2
      exact ⟨n + 1, c', e, by simpa [drive, System.run] using hfin, he, by rw [hr3, hr2, hr1],
        by rw [hs3, hs2, hs1], fun v hv => ho3 v (ho2 v (ho1 v hv))⟩

/-! ## Handler steps under any interleaving -/

theorem step_other_pc {s s' : Server} {c c' : Call} {t : Thread} (ht : t ≠ .handler)
    (hs : c.step t s = some (s', c')) : c'.pc = c.pc ∧ c'.r = c.r := by
  cases t
  · exact absurd rfl ht
  · simp only [Call.step, Server.consumeReceiver] at hs
    split at hs <;> (try split at hs) <;>
      first
        | (simp only [Option.some.injEq, Prod.mk.injEq] at hs; obtain ⟨-, rfl⟩ := hs; exact ⟨rfl, rfl⟩)
        | exact absurd hs (by simp)
  · simp only [Call.step, Server.watchdog] at hs
    split at hs <;>
      first
        | (simp only [Option.some.injEq, Prod.mk.injEq] at hs; obtain ⟨-, rfl⟩ := hs; exact ⟨rfl, rfl⟩)
        | exact absurd hs (by simp)

theorem exitRank_congr {e : Error} {c c' : Call} (h1 : c'.pc = c.pc) (h2 : c'.r = c.r) :
    c'.exitRank e = c.exitRank e := by
  simp only [Call.exitRank, h1, h2]

theorem exitRank_Receiver {e : Error} (s : Server) (c : Call) (k : Nat)
    (h : c.exitRank e = some (k + 1)) :
    ∃ s' c', s.Receiver c = some (s', c') ∧ c'.exitRank e = some k := by
  obtain ⟨r, srv, pc, ac, rx, buffer, closed, cancelled, watchdog, producer, pulls, sends, log⟩ := c
  cases pc <;> simp only [Call.exitRank] at h
  case check v =>
    split at h
    · rename_i hv
      simp only [Option.some.injEq] at h
      have hk : k = 2 := by omega
      subst hk
      simp only [checks] at hv
      simp only [Server.Receiver]
      split at hv
      · rename_i h1
        simp only [Option.some.injEq] at hv
        subst hv
        rw [if_pos h1]
        exact ⟨_, _, rfl, by simp [Call.exitRank]⟩
      · rename_i h1
        split at hv
        · rename_i h2
          simp only [Option.some.injEq] at hv
          subst hv
          rw [if_neg h1, if_pos h2]
          exact ⟨_, _, rfl, by simp [Call.exitRank]⟩
        · simp at hv
    · simp at h
  all_goals first
    | (split at h
       · rename_i hv
         simp only [Option.some.injEq] at h
         subst hv
         simp only [Server.Receiver, Call.exitRank]
         refine ⟨_, _, rfl, ?_⟩
         simp only [if_true, Option.some.injEq]
         omega
       · simp at h)
    | simp at h

theorem exitRank_zero {e : Error} (s : Server) (c : Call) (h : c.exitRank e = some 0) :
    c.pc = .returned (some e) ∧ s.Receiver c = none := by
  obtain ⟨r, srv, pc, ac, rx, buffer, closed, cancelled, watchdog, producer, pulls, sends, log⟩ := c
  cases pc <;> simp only [Call.exitRank] at h
  case returned err =>
    split at h
    · rename_i hv
      subst hv
      simp [Server.Receiver]
    · simp at h
  all_goals first
    | (split at h <;> simp at h)
    | simp at h

theorem act_rank (ρ : Call → Option Nat)
    (hcongr : ∀ c c' : Call, c'.pc = c.pc → c'.r = c.r → c'.srv = c.srv → ρ c' = ρ c)
    (hsucc : ∀ (s : Server) (c : Call) (k : Nat), ρ c = some (k + 1) →
      ∃ s' c', s.Receiver c = some (s', c') ∧ ρ c' = some k)
    (hzero : ∀ (s s' : Server) (c c' : Call), ρ c = some 0 → s.Receiver c = some (s', c') →
      ρ c' = some 0)
    (σ : System) (a : Action) (i : Nat) (c : Call) (k : Nat)
    (hc : σ.calls[i]? = some c) (hk : ρ c = some k) :
    ∃ c1, (σ.act a).calls[i]? = some c1 ∧ ρ c1 = some (k - handlerSteps i [a]) := by
  obtain ⟨hi, -⟩ := List.getElem?_eq_some.mp hc
  cases a with
  | call r srv =>
    refine ⟨c, ?_, by simpa [handlerSteps] using hk⟩
    simp only [System.act]
    rw [List.getElem?_append_left hi]
    exact hc
  | alert missed => exact ⟨c, hc, by simpa [handlerSteps] using hk⟩
  | shutdown => exact ⟨c, hc, by simpa [handlerSteps] using hk⟩
  | hangup j =>
    simp only [System.act]
    split
    · exact ⟨c, hc, by simpa [handlerSteps] using hk⟩
    · rename_i d hd
      by_cases hji : j = i
      · subst hji
        rw [hc] at hd
        simp only [Option.some.injEq] at hd
        subst hd
        refine ⟨{ c with cancelled := true }, by simp [List.getElem?_set, hi], ?_⟩
        rw [hcongr c { c with cancelled := true } rfl rfl rfl]
        simpa [handlerSteps] using hk
      · refine ⟨c, by simpa [List.getElem?_set_ne hji] using hc, ?_⟩
        simpa [handlerSteps] using hk
  | step j t =>
    by_cases hji : j = i
    · subst hji
      cases t with
      | handler =>
        cases k with
        | zero =>
          rcases act_step_eq σ j .handler c hc with ⟨-, he⟩ | ⟨s', c', hs, he, hg⟩
          · exact ⟨c, by rw [he]; exact hc, by simpa [handlerSteps] using hk⟩
          · exact ⟨c', by rw [he]; exact hg, by simpa [handlerSteps] using hzero _ _ _ _ hk hs⟩
        | succ k =>
          obtain ⟨s', c', hs, hk'⟩ := hsucc σ.server c k hk
          refine ⟨c', ?_, by simpa [handlerSteps] using hk'⟩
          simp [System.act, hc, Call.step, hs, List.getElem?_set, hi]
      | producer =>
        rcases act_step_eq σ j .producer c hc with ⟨-, he⟩ | ⟨s', c', hs, he, hg⟩
        · exact ⟨c, by rw [he]; exact hc, by simpa [handlerSteps] using hk⟩
        · obtain ⟨h1, h2⟩ := step_other_pc (by decide) hs
          refine ⟨c', by rw [he]; exact hg, ?_⟩
          rw [hcongr c c' h1 h2 (step_args hs).2]
          simpa [handlerSteps] using hk
      | watchdog =>
        rcases act_step_eq σ j .watchdog c hc with ⟨-, he⟩ | ⟨s', c', hs, he, hg⟩
        · exact ⟨c, by rw [he]; exact hc, by simpa [handlerSteps] using hk⟩
        · obtain ⟨h1, h2⟩ := step_other_pc (by decide) hs
          refine ⟨c', by rw [he]; exact hg, ?_⟩
          rw [hcongr c c' h1 h2 (step_args hs).2]
          simpa [handlerSteps] using hk
    · have hsteps : handlerSteps i [Action.step j t] = 0 := by
        cases t <;> simp [handlerSteps, hji]
      rw [hsteps]
      refine ⟨c, ?_, hk⟩
      simp only [System.act]
      split
      · exact hc
      · split
        · exact hc
        · simpa [List.getElem?_set_ne hji] using hc

theorem handlerSteps_cons (i : Nat) (a : Action) (as : List Action) :
    handlerSteps i (a :: as) = handlerSteps i [a] + handlerSteps i as := by
  cases a with
  | step j t => cases t <;> simp [handlerSteps]
  | _ => simp [handlerSteps]

theorem run_rank (ρ : Call → Option Nat)
    (hcongr : ∀ c c' : Call, c'.pc = c.pc → c'.r = c.r → c'.srv = c.srv → ρ c' = ρ c)
    (hsucc : ∀ (s : Server) (c : Call) (k : Nat), ρ c = some (k + 1) →
      ∃ s' c', s.Receiver c = some (s', c') ∧ ρ c' = some k)
    (hzero : ∀ (s s' : Server) (c c' : Call), ρ c = some 0 → s.Receiver c = some (s', c') →
      ρ c' = some 0)
    (i : Nat) (bs : List Action) :
    ∀ (σ : System) (c : Call) (k : Nat), σ.calls[i]? = some c → ρ c = some k →
      k ≤ handlerSteps i bs → ∃ c', (σ.run bs).calls[i]? = some c' ∧ ρ c' = some 0 := by
  induction bs with
  | nil =>
    intro σ c k hc hk hle
    have hk0 : k = 0 := by simpa [handlerSteps] using hle
    subst hk0
    exact ⟨c, hc, hk⟩
  | cons a bs ih =>
    intro σ c k hc hk hle
    obtain ⟨c1, hc1, hk1⟩ := act_rank ρ hcongr hsucc hzero σ a i c k hc hk
    rw [handlerSteps_cons] at hle
    exact ih (σ.act a) c1 _ hc1 hk1 (by omega)

theorem run_exitRank {e : Error} (i : Nat) (bs : List Action) (σ : System) (c : Call) (k : Nat)
    (hc : σ.calls[i]? = some c) (hk : c.exitRank e = some k) (hle : k ≤ handlerSteps i bs) :
    ∃ c', (σ.run bs).calls[i]? = some c' ∧ c'.pc = .returned (some e) := by
  obtain ⟨c', hc', h0⟩ := run_rank (Call.exitRank e)
    (fun c c' h1 h2 _ => exitRank_congr h1 h2)
    (fun s c k h => exitRank_Receiver s c k h)
    (fun s s' c c' h hs => by rw [(exitRank_zero s c h).2] at hs; simp at hs)
    i bs σ c k hc hk hle
  exact ⟨c', hc', (exitRank_zero σ.server c' h0).1⟩

theorem openRank_Receiver {ctx : Nat} {r0 : EgressRequest} (s : Server) (c : Call) (k : Nat)
    (h : c.openRank ctx r0 = some (k + 1)) :
    ∃ s' c', s.Receiver c = some (s', c') ∧ c'.openRank ctx r0 = some k := by
  obtain ⟨r, srv, pc, ac, rx, buffer, closed, cancelled, watchdog, producer, pulls, sends, log⟩ := c
  simp only [Call.openRank] at h
  split at h
  · rename_i hid
    cases pc
    case check v =>
      simp only at h
      split at h
      · rename_i hv
        simp only [Option.some.injEq] at h
        have hk : k = 1 := by omega
        subst hk
        simp only [checks] at hv
        split at hv
        · simp at hv
        · rename_i h1
          split at hv
          · simp at hv
          · rename_i h2
            simp only [Server.Receiver]
            rw [if_neg h1, if_neg h2]
            exact ⟨_, _, rfl, by simp [Call.openRank, hid]⟩
      · simp at h
    case setup =>
      simp only [Option.some.injEq] at h
      have hk : k = 0 := by omega
      subst hk
      simp only [Server.Receiver]
      split
      · exact ⟨_, _, rfl, by simp [Call.openRank, hid, Handler.opened, openedOf]⟩
      · exact ⟨_, _, rfl, by simp [Call.openRank, hid, Handler.opened]⟩
    all_goals
      simp only at h
      split at h <;> simp at h
  · simp at h

theorem openRank_zero {ctx : Nat} {r0 : EgressRequest} (s s' : Server) (c c' : Call)
    (h : c.openRank ctx r0 = some 0) (hs : s.Receiver c = some (s', c')) :
    c'.openRank ctx r0 = some 0 := by
  obtain ⟨r, srv, pc, ac, rx, buffer, closed, cancelled, watchdog, producer, pulls, sends, log⟩ := c
  simp only [Call.openRank] at h
  split at h
  · rename_i hid
    simp only [Server.Receiver] at hs
    cases pc
    all_goals simp only at h hs
    all_goals try split at hs
    all_goals try split at hs
    all_goals first
      | (simp only [Option.some.injEq, Prod.mk.injEq] at hs; obtain ⟨-, rfl⟩ := hs)
      | (exact absurd hs (by simp))
    all_goals first
      | (simp [Handler.opened] at h; done)
      | (split at h
         · simp at h)
      | simp_all [Call.openRank, Handler.opened, openedOf]
  · simp at h

theorem openRank_congr {ctx : Nat} {r0 : EgressRequest} {c c' : Call} (h1 : c'.pc = c.pc)
    (h2 : c'.r = c.r) (h3 : c'.srv = c.srv) : c'.openRank ctx r0 = c.openRank ctx r0 := by
  simp only [Call.openRank, h1, h2, h3]

theorem run_openRank {ctx : Nat} {r0 : EgressRequest} (i : Nat) (bs : List Action) (σ : System)
    (c : Call) (k : Nat) (hc : σ.calls[i]? = some c) (hk : c.openRank ctx r0 = some k)
    (hle : k ≤ handlerSteps i bs) :
    ∃ c', (σ.run bs).calls[i]? = some c' ∧ c'.openRank ctx r0 = some 0 :=
  run_rank (Call.openRank ctx r0) (fun _ _ h1 h2 h3 => openRank_congr h1 h2 h3)
    (fun s c k h => openRank_Receiver s c k h) (fun s s' c c' h hs => openRank_zero s s' c c' h hs)
    i bs σ c k hc hk hle

/-! ## Consequences of the invariant -/

theorem run_append (σ : System) (as bs : List Action) :
    σ.run (as ++ bs) = (σ.run as).run bs := by
  simp [System.run, List.foldl_append]

theorem rejectionOf_eq_some {err : Option Error} {e : Error} (h : rejectionOf err = some e) :
    err = some e := by
  rcases err with _ | (_ | _ | _ | _) <;> simp [rejectionOf] at h ⊢ <;> exact h

theorem openedOf_of_rejectionOf {err : Option Error} :
    openedOf err = none ↔ (rejectionOf err).isSome = true := by
  rcases err with _ | (_ | _ | _ | _) <;> simp [rejectionOf, openedOf]

theorem rejected_facts {R : Receiver} {c : Call} {e : Error} (h : c.Inv R)
    (hdec : c.pc.counted = true) (hver : c.verdict = some e)
    (hadm : ∀ v, c.pc = .check v → checks v c.r = some e) :
    (∃ k, c.exitRank e = some k ∧ k ≤ 3) ∧ c.pc.opened = none ∧ c.producer = .idle := by
  have h6 := h.idle
  have h9 := h.verdict
  obtain ⟨r, srv, pc, ac, rx, buffer, closed, cancelled, watchdog, producer, pulls, sends, log⟩ := c
  dsimp only at *
  cases pc
  case entry => simp [Handler.counted] at hdec
  case enter => simp [Handler.counted] at hdec
  case check v =>
    refine ⟨⟨3, by simp [Call.exitRank, hadm v rfl], le_refl _⟩, rfl, ?_⟩
    exact h6.mpr (by simp [Handler.opened])
  all_goals
    have h9' := h9 rfl
    rw [hver] at h9'
    simp only [Handler.rejection] at h9'
  case setup => simp at h9'
  case recv => simp at h9'
  case send => simp at h9'
  case count => simp at h9'
  all_goals
    have herr := rejectionOf_eq_some h9'.symm
    subst herr
    have hop : openedOf (some e) = none := openedOf_of_rejectionOf.mpr (by rw [← h9']; rfl)
    refine ⟨⟨_, by simp [Call.exitRank]; rfl, by omega⟩, by simpa [Handler.opened] using hop, ?_⟩
    exact h6.mpr (by simp [Handler.opened, hop])

/-! ## The metric counters as sums over the invocations -/

theorem sum_map_set_balance {α : Type} (f : α → Nat) (l : List α) (i : Nat) (c c' : α)
    (hc : l[i]? = some c) :
    ((l.set i c').map f).sum + f c = (l.map f).sum + f c' := by
  induction l generalizing i with
  | nil => simp at hc
  | cons x l ih =>
    cases i with
    | zero =>
      simp only [List.getElem?_cons_zero, Option.some.injEq] at hc
      subst hc
      simp only [List.set_cons_zero, List.map_cons, List.sum_cons]
      omega
    | succ i =>
      simp only [List.getElem?_cons_succ] at hc
      have := ih i hc
      simp only [List.set_cons_succ, List.map_cons, List.sum_cons]
      omega

theorem step_ledger {s s' : Server} {c c' : Call} {t : Thread}
    (hs : c.step t s = some (s', c')) :
    s'.egressMetric.delta + egressDelta c.log = s.egressMetric.delta + egressDelta c'.log ∧
    s'.droppedMetric.delta + droppedDelta c.log
      = s.droppedMetric.delta + droppedDelta c'.log := by
  cases t
  · simp only [Call.step, Server.Receiver] at hs
    split at hs <;> (try split at hs) <;> (try split at hs) <;>
      first
        | (simp only [Option.some.injEq, Prod.mk.injEq] at hs
           obtain ⟨rfl, rfl⟩ := hs
           simp [Event.egressDelta, Event.droppedDelta, CounterMetric.Increment]
           done)
        | (simp only [Option.some.injEq, Prod.mk.injEq] at hs
           obtain ⟨rfl, rfl⟩ := hs
           simp [Event.egressDelta, Event.droppedDelta, CounterMetric.Increment]
           omega)
        | exact absurd hs (by simp)
  · simp only [Call.step, Server.consumeReceiver] at hs
    split at hs <;> (try split at hs) <;>
      first
        | (simp only [Option.some.injEq, Prod.mk.injEq] at hs
           obtain ⟨rfl, rfl⟩ := hs
           simp [Event.egressDelta, Event.droppedDelta, CounterMetric.Increment]
           done)
        | (simp only [Option.some.injEq, Prod.mk.injEq] at hs
           obtain ⟨rfl, rfl⟩ := hs
           simp [Event.egressDelta, Event.droppedDelta, CounterMetric.Increment]
           omega)
        | exact absurd hs (by simp)
  · simp only [Call.step, Server.watchdog] at hs
    split at hs
    · simp only [Option.some.injEq, Prod.mk.injEq] at hs
      obtain ⟨rfl, rfl⟩ := hs
      exact ⟨rfl, rfl⟩
    · simp at hs

theorem act_ledger (σ : System) (a : Action) :
    (σ.act a).server.egressMetric.delta + (σ.calls.map fun c => egressDelta c.log).sum
      = σ.server.egressMetric.delta + ((σ.act a).calls.map fun c => egressDelta c.log).sum ∧
    (σ.act a).server.droppedMetric.delta + (σ.calls.map fun c => droppedDelta c.log).sum
        + alerted []
      = σ.server.droppedMetric.delta + ((σ.act a).calls.map fun c => droppedDelta c.log).sum
        + alerted [a] := by
  cases a with
  | call r srv =>
    simp [System.act, Call.new, alerted, egressDelta, droppedDelta]
  | alert missed =>
    simp only [System.act, Server.Alert, CounterMetric.Increment, alerted]
    constructor
    · trivial
    · dsimp only
      omega
  | shutdown => simp [System.act, alerted]
  | hangup j =>
    simp only [System.act, alerted]
    split
    · simp
    · rename_i c hc
      have e1 := sum_map_set_balance (fun c => egressDelta c.log) σ.calls j c
        { c with cancelled := true } hc
      have e2 := sum_map_set_balance (fun c => droppedDelta c.log) σ.calls j c
        { c with cancelled := true } hc
      dsimp only at e1 e2 ⊢
      omega
  | step j t =>
    simp only [System.act, alerted]
    split
    · simp
    · rename_i c hc
      split
      · simp
      · rename_i s' c' hs
        obtain ⟨k1, k2⟩ := step_ledger hs
        have e1 := sum_map_set_balance (fun c => egressDelta c.log) σ.calls j c c' hc
        have e2 := sum_map_set_balance (fun c => droppedDelta c.log) σ.calls j c c' hc
        dsimp only at e1 e2 ⊢
        omega

theorem alerted_cons (a : Action) (as : List Action) :
    alerted (a :: as) = alerted [a] + alerted as := by
  cases a <;> simp [alerted]

theorem run_ledger (as : List Action) :
    ∀ σ : System,
      (σ.run as).server.egressMetric.delta + (σ.calls.map fun c => egressDelta c.log).sum
        = σ.server.egressMetric.delta + ((σ.run as).calls.map fun c => egressDelta c.log).sum ∧
      (σ.run as).server.droppedMetric.delta + (σ.calls.map fun c => droppedDelta c.log).sum
        = σ.server.droppedMetric.delta + ((σ.run as).calls.map fun c => droppedDelta c.log).sum
          + alerted as := by
  induction as with
  | nil => intro σ; simp [System.run, alerted]
  | cons a as ih =>
    intro σ
    obtain ⟨h1, h2⟩ := act_ledger σ a
    obtain ⟨h3, h4⟩ := ih (σ.act a)
    have hrun : σ.run (a :: as) = (σ.act a).run as := rfl
    rw [hrun, alerted_cons]
    simp only [alerted, Nat.add_zero] at h2
    constructor <;> omega

theorem boot_ledger (s : Server) (as : List Action) :
    ((System.boot s).run as).server.egressMetric.delta
      = s.egressMetric.delta
        + (((System.boot s).run as).calls.map fun c => egressDelta c.log).sum ∧
    ((System.boot s).run as).server.droppedMetric.delta
      = s.droppedMetric.delta
        + (((System.boot s).run as).calls.map fun c => droppedDelta c.log).sum + alerted as := by
  obtain ⟨h1, h2⟩ := run_ledger as (System.boot s)
  simp only [System.boot, List.map_nil, List.sum_nil, Nat.add_zero] at h1 h2
  exact ⟨h1, h2⟩

/-! ## The flood scenario -/

theorem act_step_last (σ : System) (L : List Call) (c c' : Call) (t : Thread) (s' : Server)
    (hL : σ.calls = L ++ [c]) (hs : c.step t σ.server = some (s', c')) :
    σ.act (.step L.length t) = { server := s', calls := L ++ [c'] } := by
  have hget : σ.calls[L.length]? = some c := by
    rw [hL]
    simp
  unfold System.act
  simp only [hget]
  rw [hs]
  simp [hL]

theorem round_state (sv : Server) (L : List Call) (r : EgressRequest)
    (srv : Egress_ReceiverServer) :
    ({ server := sv, calls := L } : System).run
        [.call r srv, .step L.length .handler, .step L.length .handler]
      = { server := { sv with health := sv.health.Inc "subscriptionCount"
                              activeConnections := sv.activeConnections + 1 }
          calls := L ++ [{ Call.new r srv with
            pc := .check (sv.activeConnections + 1)
            activeConnections := some (sv.activeConnections + 1)
            log := [.healthInc "subscriptionCount", .addActive 1] }] } := by
  have e1 : System.act { server := sv, calls := L } (.call r srv)
      = { server := sv, calls := L ++ [Call.new r srv] } := rfl
  have e2 := act_step_last { server := sv, calls := L ++ [Call.new r srv] } L (Call.new r srv)
    { Call.new r srv with pc := .enter, log := [.healthInc "subscriptionCount"] } .handler
    { sv with health := sv.health.Inc "subscriptionCount" } rfl rfl
  have e3 := act_step_last
    { server := { sv with health := sv.health.Inc "subscriptionCount" },
      calls := L ++ [{ Call.new r srv with
        pc := .enter, log := [.healthInc "subscriptionCount"] }] } L
    { Call.new r srv with pc := .enter, log := [.healthInc "subscriptionCount"] }
    { Call.new r srv with
      pc := .check (sv.activeConnections + 1)
      activeConnections := some (sv.activeConnections + 1)
      log := [.healthInc "subscriptionCount", .addActive 1] } .handler
    { sv with health := sv.health.Inc "subscriptionCount"
              activeConnections := sv.activeConnections + 1 } rfl rfl
  have hrun : ({ server := sv, calls := L } : System).run
      [.call r srv, .step L.length .handler, .step L.length .handler]
      = ((System.act { server := sv, calls := L } (.call r srv)).act
          (.step L.length .handler)).act (.step L.length .handler) := rfl
  rw [hrun, e1, e2, e3]

theorem flood_state (R : Receiver) (h : HealthRegistrar) (x : Bool) (r : EgressRequest)
    (srv : Egress_ReceiverServer) :
    ∀ n : Nat, ∃ sv : Server,
      (System.boot (NewServer R h x)).run (flood r srv n)
        = { server := sv, calls := (List.range n).map (waiting r srv) } ∧
      sv.activeConnections = n := by
  intro n
  induction n with
  | zero => exact ⟨NewServer R h x, rfl, rfl⟩
  | succ n ih =>
    obtain ⟨sv, hrun, hac⟩ := ih
    have hlen : ((List.range n).map (waiting r srv)).length = n := by simp
    have hround := round_state sv ((List.range n).map (waiting r srv)) r srv
    rw [hlen] at hround
    refine ⟨{ sv with health := sv.health.Inc "subscriptionCount"
                      activeConnections := sv.activeConnections + 1 }, ?_, ?_⟩
    · simp only [flood, run_append, hrun, hround]
      simp only [List.range_succ, List.map_append, List.map_cons, List.map_nil, waiting, hac]
    · simp [hac]

theorem flood_call (R : Receiver) (h : HealthRegistrar) (x : Bool) (r : EgressRequest)
    (srv : Egress_ReceiverServer) (n j : Nat) (hj : j < n) :
    ((System.boot (NewServer R h x)).run (flood r srv n)).calls[j]? = some (waiting r srv j) := by
  obtain ⟨sv, hrun, -⟩ := flood_state R h x r srv n
  rw [hrun]
  simp [List.getElem?_map, List.getElem?_range hj]

theorem flood_counter (R : Receiver) (h : HealthRegistrar) (x : Bool) (r : EgressRequest)
    (srv : Egress_ReceiverServer) (n : Nat) :
    ((System.boot (NewServer R h x)).run (flood r srv n)).server.activeConnections = n := by
  obtain ⟨sv, hrun, hac⟩ := flood_state R h x r srv n
  rw [hrun]
  exact hac

/-! ## Admission -/

theorem quiet_of_unopened {R : Receiver} {c : Call} (h : c.Inv R) (hop : c.pc.opened = none) :
    received c.log = [] ∧ sent c.log = [] ∧ egressDelta c.log = 0 ∧ droppedDelta c.log = 0 ∧
      c.producer = .idle := by
  have hidle : c.producer = .idle := h.idle.mpr (by simp [hop])
  have h4 := h.calls
  rw [hop] at h4
  have h10 := h.quiet (by simp [hop])
  have h11 := h.unborn hidle
  exact ⟨h4, h10.1, h10.2, h11.2.1, hidle⟩

theorem Receiver_metrics {s s' : Server} {c c' : Call} (hs : s.Receiver c = some (s', c'))
    (hpc : c.pc ≠ .count) :
    s'.egressMetric = s.egressMetric ∧ s'.droppedMetric = s.droppedMetric := by
  simp only [Server.Receiver] at hs
  split at hs <;> (try split at hs) <;> (try split at hs) <;>
    first
      | (rename_i hcount; exact absurd hcount hpc)
      | (simp only [Option.some.injEq, Prod.mk.injEq] at hs; obtain ⟨rfl, -⟩ := hs; exact ⟨rfl, rfl⟩)
      | exact absurd hs (by simp)

theorem rejected_step_metrics {c : Call} {e : Error} {k : Nat} (hk : c.exitRank e = some k)
    (hidle : c.producer = .idle) (t : Thread) (s1 s2 : Server) (c2 : Call)
    (hs : c.step t s1 = some (s2, c2)) :
    s2.egressMetric = s1.egressMetric ∧ s2.droppedMetric = s1.droppedMetric := by
  cases t
  · refine Receiver_metrics hs ?_
    intro hpc
    simp [Call.exitRank, hpc] at hk
  · simp [Call.step, Server.consumeReceiver, hidle] at hs
  · simp only [Call.step, Server.watchdog] at hs
    split at hs
    · simp only [Option.some.injEq, Prod.mk.injEq] at hs
      obtain ⟨rfl, -⟩ := hs
      exact ⟨rfl, rfl⟩
    · simp at hs

/-- C1: a call whose observed `activeConnections` (the value right after its
own increment) is above 500 never calls `Receiver.Receive` or `stream.Send`,
none of its steps changes the `egress` or `dropped` counter, the only value it
returns is the error "We have too many connections!" (whatever its filter or
shard id), and it does return it: in every continuation of the interleaving in
which its handler is scheduled three more times it has returned that error. -/
theorem C1_over_cap_rejected (s : Server) (as : List Action) (i : Nat) (c : Call) (v : Int)
    (hc : ((System.boot s).run as).calls[i]? = some c)
    (hv : c.activeConnections = some v) (hover : v > 500) :
    (received c.log = [] ∧ sent c.log = [] ∧ egressDelta c.log = 0 ∧ droppedDelta c.log = 0) ∧
    (∀ (t : Thread) (s1 s2 : Server) (c2 : Call), c.step t s1 = some (s2, c2) →
      s2.egressMetric = s1.egressMetric ∧ s2.droppedMetric = s1.droppedMetric) ∧
    (∀ e, c.pc = .returned e → e = some .tooManyConnections) ∧
    (∀ bs, 3 ≤ handlerSteps i bs →
      ∃ c', ((System.boot s).run (as ++ bs)).calls[i]? = some c' ∧
        c'.pc = .returned (some .tooManyConnections) ∧
        received c'.log = [] ∧ sent c'.log = [] ∧
        egressDelta c'.log = 0 ∧ droppedDelta c'.log = 0) ∧
    Error.message .tooManyConnections = "We have too many connections!" := by
  have hinv := boot_inv s as c (List.getElem?_mem hc)
  have hcounted : c.pc.counted = true := by
    have := hinv.observed
    rw [hv] at this
    simpa using this.symm
  have hver : c.verdict = some .tooManyConnections := by
    simp [Call.verdict, Call.over, hv, maxConnections, hover]
  have hadm : ∀ w, c.pc = .check w → checks w c.r = some .tooManyConnections := by
    intro w hw
    have := hinv.admitting w hw
    rw [hv] at this
    simp only [Option.some.injEq] at this
    subst this
    simp [checks, maxConnections, hover]
  obtain ⟨⟨k, hk, hk3⟩, hop, hidle⟩ := rejected_facts hinv hcounted hver hadm
  obtain ⟨q1, q2, q3, q4, -⟩ := quiet_of_unopened hinv hop
  refine ⟨⟨q1, q2, q3, q4⟩, rejected_step_metrics hk hidle, ?_, ?_, rfl⟩
  · intro e he
    simp only [Call.exitRank, he] at hk
    split at hk
    · assumption
    · simp at hk
  · intro bs hbs
    obtain ⟨c', hc', hpc'⟩ := run_exitRank i bs _ c k hc hk (by omega)
    rw [← run_append] at hc'
    have hinv' := boot_inv s (as ++ bs) c' (List.getElem?_mem hc')
    obtain ⟨p1, p2, p3, p4, -⟩ := quiet_of_unopened hinv' (by simp [hpc', Handler.opened, openedOf])
    exact ⟨c', hc', hpc', p1, p2, p3, p4⟩

/-! ## Filter validation -/

theorem message_invalid (e : Option Error) :
    e.map Error.message = some "invalid request: cannot have type filter without source id"
      ↔ e = some .invalidRequest := by
  rcases e with _ | (_ | _ | _ | _) <;> simp [Error.message]

theorem invalidFilter_iff (r : EgressRequest) :
    invalidFilter r = true ↔ ∃ f, r.GetFilter = some f ∧ f.Message ≠ none ∧ f.SourceId = "" := by
  unfold invalidFilter
  cases h : r.GetFilter with
  | none => simp
  | some f =>
    simp only [Bool.and_eq_true, beq_iff_eq, Option.some.injEq, exists_eq_left']
    constructor
    · rintro ⟨h1, h2⟩
      exact ⟨by intro hn; simp [hn] at h2, h1⟩
    · rintro ⟨h1, h2⟩
      exact ⟨h2, by cases hm : f.Message <;> simp [hm] at h1 ⊢⟩

theorem opened_facts {R : Receiver} {c : Call} (h : c.Inv R) :
    (received c.log = [] ∨ ∃ ok, received c.log = [(c.srv.Context, c.r, ok)]) ∧
    (c.pc.opened.isSome = true → ∃ ok, received c.log = [(c.srv.Context, c.r, ok)]) := by
  have h4 := h.calls
  cases hop : c.pc.opened with
  | none => rw [hop] at h4; exact ⟨Or.inl h4, by simp⟩
  | some ok => rw [hop] at h4; exact ⟨Or.inr ⟨ok, h4⟩, fun _ => ⟨ok, h4⟩⟩

theorem admitted_facts {R : Receiver} {c : Call} {v : Int} (h : c.Inv R)
    (hv : c.activeConnections = some v) (hadm : v ≤ 500) (hvalid : invalidFilter c.r = false) :
    (∃ k, c.openRank c.srv.Context c.r = some k ∧ k ≤ 2) ∧
    (∀ e, c.pc = .returned e → (openedOf e).isSome = true) := by
  have hcounted : c.pc.counted = true := by
    have := h.observed
    rw [hv] at this
    simpa using this.symm
  have hver : c.verdict = none := by
    have : ¬ v > maxConnections := by simp [maxConnections]; omega
    simp [Call.verdict, Call.over, hv, this, hvalid]
  have h8 := h.admitting
  have h9 := h.verdict
  rw [hver] at h9
  obtain ⟨r, srv, pc, ac, rx, buffer, closed, cancelled, watchdog, producer, pulls, sends, log⟩ := c
  dsimp only at *
  have hrej : ∀ err, none = rejectionOf err → (openedOf err).isSome = true := by
    intro err herr
    rcases err with _ | (_ | _ | _ | _) <;> simp [rejectionOf, openedOf] at herr ⊢
  cases pc
  case entry => simp [Handler.counted] at hcounted
  case enter => simp [Handler.counted] at hcounted
  case check w =>
    have := h8 w rfl
    rw [hv] at this
    simp only [Option.some.injEq] at this
    subst this
    have hnot : ¬ v > maxConnections := by simp [maxConnections]; omega
    refine ⟨⟨2, ?_, le_refl _⟩, by simp⟩
    simp [Call.openRank, checks, hnot, hvalid]
  case setup => exact ⟨⟨1, by simp [Call.openRank], by omega⟩, by simp⟩
  case recv => exact ⟨⟨0, by simp [Call.openRank, Handler.opened], by omega⟩, by simp⟩
  case send => exact ⟨⟨0, by simp [Call.openRank, Handler.opened], by omega⟩, by simp⟩
  case count => exact ⟨⟨0, by simp [Call.openRank, Handler.opened], by omega⟩, by simp⟩
  all_goals
    have hop := hrej _ (h9 rfl)
    refine ⟨⟨0, by simp [Call.openRank, Handler.opened, hop], by omega⟩, ?_⟩
    intro e he
    first
      | (simp only [Handler.returned.injEq] at he; subst he; exact hop)
      | simp at he

/-- C2: for a call admitted under the cap (observed `activeConnections` at most
500), the value returned is the error "invalid request: cannot have type filter
without source id" exactly when the request has a filter whose message type is
set and whose source id is empty.  Such a call never calls `Receive` nor `Send`
and does return that error (after three more steps of its handler, in every
interleaving).  In every other case `Receive` is called with the call's own
context and request, at most once at any time, exactly once when the call has
returned, and it is called after two more steps of the handler. -/
theorem C2_filter_validation (s : Server) (as : List Action) (i : Nat) (c : Call) (v : Int)
    (hc : ((System.boot s).run as).calls[i]? = some c)
    (hv : c.activeConnections = some v) (hadm : v ≤ 500) :
    (invalidFilter c.r = true ↔
      ∃ f, c.r.GetFilter = some f ∧ f.Message ≠ none ∧ f.SourceId = "") ∧
    (∀ e, c.pc = .returned e →
      (e.map Error.message = some "invalid request: cannot have type filter without source id"
        ↔ invalidFilter c.r = true)) ∧
    (invalidFilter c.r = true →
      received c.log = [] ∧ sent c.log = [] ∧
      ∀ bs, 3 ≤ handlerSteps i bs →
        ∃ c', ((System.boot s).run (as ++ bs)).calls[i]? = some c' ∧
          c'.pc = .returned (some .invalidRequest) ∧ received c'.log = [] ∧ sent c'.log = []) ∧
    (invalidFilter c.r = false →
      (received c.log = [] ∨ ∃ ok, received c.log = [(c.srv.Context, c.r, ok)]) ∧
      (∀ e, c.pc = .returned e → ∃ ok, received c.log = [(c.srv.Context, c.r, ok)]) ∧
      ∀ bs, 2 ≤ handlerSteps i bs →
        ∃ c' ok, ((System.boot s).run (as ++ bs)).calls[i]? = some c' ∧
          received c'.log = [(c.srv.Context, c.r, ok)]) := by
  have hinv := boot_inv s as c (List.getElem?_mem hc)
  have hcounted : c.pc.counted = true := by
    have := hinv.observed
    rw [hv] at this
    simpa using this.symm
  have hnot : ¬ v > maxConnections := by simp [maxConnections]; omega
  have hbad : invalidFilter c.r = true →
      (∃ k, c.exitRank .invalidRequest = some k ∧ k ≤ 3) ∧ c.pc.opened = none ∧
        c.producer = .idle := by
    intro hf
    refine rejected_facts hinv hcounted (by simp [Call.verdict, Call.over, hv, hnot, hf]) ?_
    intro w hw
    have := hinv.admitting w hw
    rw [hv] at this
    simp only [Option.some.injEq] at this
    subst this
    simp [checks, hnot, hf]
  refine ⟨invalidFilter_iff c.r, ?_, ?_, ?_⟩
  · intro e he
    rw [message_invalid]
    constructor
    · intro hinvd
      subst hinvd
      by_contra hf
      have hf' : invalidFilter c.r = false := by simpa using hf
      have := (admitted_facts hinv hv hadm hf').2 _ he
      simp [openedOf] at this
    · intro hf
      obtain ⟨⟨k, hk, -⟩, -, -⟩ := hbad hf
      simp only [Call.exitRank, he] at hk
      split at hk
      · assumption
      · simp at hk
  · intro hf
    obtain ⟨⟨k, hk, hk3⟩, hop, -⟩ := hbad hf
    obtain ⟨q1, q2, -, -, -⟩ := quiet_of_unopened hinv hop
    refine ⟨q1, q2, ?_⟩
    intro bs hbs
    obtain ⟨c', hc', hpc'⟩ := run_exitRank i bs _ c k hc hk (by omega)
    rw [← run_append] at hc'
    have hinv' := boot_inv s (as ++ bs) c' (List.getElem?_mem hc')
    obtain ⟨p1, p2, -, -, -⟩ := quiet_of_unopened hinv' (by simp [hpc', Handler.opened, openedOf])
    exact ⟨c', hc', hpc', p1, p2⟩
  · intro hf
    obtain ⟨⟨k, hk, hk2⟩, hret⟩ := admitted_facts hinv hv hadm hf
    refine ⟨(opened_facts hinv).1, ?_, ?_⟩
    · intro e he
      exact (opened_facts hinv).2 (by simpa [he, Handler.opened] using hret e he)
    · intro bs hbs
      obtain ⟨c', hc', h0⟩ := run_openRank i bs _ c k hc hk (by omega)
      rw [← run_append] at hc'
      have hinv' := boot_inv s (as ++ bs) c' (List.getElem?_mem hc')
      simp only [Call.openRank] at h0
      split at h0
      · rename_i hid
        have hopen : c'.pc.opened.isSome = true := by
          split at h0
          · split at h0 <;> simp at h0
          · simp at h0
          · split at h0
            · assumption
            · simp at h0
        obtain ⟨ok, hok⟩ := (opened_facts hinv').2 hopen
        rw [hid.1, hid.2] at hok
        exact ⟨c', ok, hc', hok⟩
      · simp at h0

/-! ## Counters, cap, buffer and order -/

/-- C3: a call that has returned, whatever value it returns (the rejection for
too many connections, the invalid-filter error, the setup error, the send
error, or nil), has called `Inc("subscriptionCount")` exactly once and
`Dec("subscriptionCount")` exactly once, and has added to `activeConnections`
exactly 1 and then exactly -1.  On the server, `activeConnections` and the
`subscriptionCount` gauge are at all times their initial values plus the number
of calls between their increment and their decrement, so both are back at
their initial values (0 for `activeConnections` on a new server) whenever all
calls have returned. -/
theorem C3_counters_balance (s : Server) (as : List Action) :
    (∀ c ∈ ((System.boot s).run as).calls, ∀ e, c.pc = .returned e →
      healthIncs c.log = ["subscriptionCount"] ∧ healthDecs c.log = ["subscriptionCount"] ∧
      activeDeltas c.log = [1, -1]) ∧
    ((System.boot s).run as).server.activeConnections
      = s.activeConnections + (((System.boot s).run as).calls.countP fun c => c.pc.holding) ∧
    ((System.boot s).run as).server.health.gauge "subscriptionCount"
      = s.health.gauge "subscriptionCount"
        + (((System.boot s).run as).calls.countP fun c => c.pc.registered) ∧
    ((∀ c ∈ ((System.boot s).run as).calls, ∃ e, c.pc = .returned e) →
      ((System.boot s).run as).server.activeConnections = s.activeConnections ∧
      ((System.boot s).run as).server.health.gauge "subscriptionCount"
        = s.health.gauge "subscriptionCount") ∧
    (∀ R h x, (NewServer R h x).activeConnections = 0) := by
  obtain ⟨h1, h2, -⟩ := boot_slots s as
  refine ⟨?_, h1, h2, ?_, fun _ _ _ => rfl⟩
  · intro c hc e he
    have hinv := boot_inv s as c hc
    have i1 := hinv.incs
    have i2 := hinv.decs
    have i3 := hinv.deltas
    rw [he] at i1 i2 i3
    exact ⟨i1, i2, i3⟩
  · intro hall
    have z1 : (((System.boot s).run as).calls.countP fun c => c.pc.holding) = 0 := by
      rw [List.countP_eq_zero]
      intro c hc
      obtain ⟨e, he⟩ := hall c hc
      simp [he, Handler.holding]
    have z2 : (((System.boot s).run as).calls.countP fun c => c.pc.registered) = 0 := by
      rw [List.countP_eq_zero]
      intro c hc
      obtain ⟨e, he⟩ := hall c hc
      simp [he, Handler.registered]
    rw [h1, h2, z1, z2]
    simp

/-- C4: on a new server, in every state every interleaving of any number of
calls can reach, at most 500 calls have passed the admission check and still
hold their connection slot (they have not yet run the deferred decrement with
which they return it), and a call that observed a value above 500 never calls
`Receive` and is never among them.  The counter itself can exceed 500: after
501 calls have run their increment it is 501. -/
theorem C4_admission_cap (R : Receiver) (h : HealthRegistrar) (x : Bool) (as : List Action) :
    (((System.boot (NewServer R h x)).run as).calls.countP fun c => c.pc.admitted) ≤ 500 ∧
    (∀ c ∈ ((System.boot (NewServer R h x)).run as).calls, ∀ v,
      c.activeConnections = some v → v > 500 →
        received c.log = [] ∧ c.pc.admitted = false) ∧
    ((System.boot (NewServer R h x)).run
      (flood demoRequest demoStream 501)).server.activeConnections = 501 := by
  obtain ⟨-, -, h3⟩ := boot_slots (NewServer R h x) as
  refine ⟨?_, ?_, flood_counter R h x demoRequest demoStream 501⟩
  · refine le_trans (List.countP_mono_left ?_) (h3 500)
    intro c hc hadm
    have hinv := boot_inv (NewServer R h x) as c hc
    simp only [Handler.admitted, Bool.and_eq_true, decide_eq_true_eq] at hadm
    obtain ⟨⟨hdec, hhold⟩, hrej⟩ := hadm
    have hver := hinv.verdict hdec
    have hobs := hinv.observed
    have hcounted : c.pc.counted = true := by
      cases hpc : c.pc <;> simp [hpc, Handler.holding, Handler.counted] at hhold ⊢
    rw [hcounted] at hobs
    obtain ⟨v, hv⟩ := Option.isSome_iff_exists.mp hobs
    have hle : v ≤ 500 := by
      by_contra hgt
      have : v > maxConnections := by simp [maxConnections]; omega
      simp [Call.verdict, Call.over, hv, this] at hver
      exact hrej hver.symm
    simp [Call.holdsAtMost, hhold, hv, NewServer, hle]
  · intro c hc v hv hover
    have hinv := boot_inv (NewServer R h x) as c hc
    have hcounted : c.pc.counted = true := by
      have := hinv.observed
      rw [hv] at this
      simpa using this.symm
    have hver : c.verdict = some .tooManyConnections := by
      simp [Call.verdict, Call.over, hv, maxConnections, hover]
    constructor
    · have hadm : ∀ w, c.pc = .check w → checks w c.r = some .tooManyConnections := by
        intro w hw
        have := hinv.admitting w hw
        rw [hv] at this
        simp only [Option.some.injEq] at this
        subst this
        simp [checks, maxConnections, hover]
      obtain ⟨-, hop, -⟩ := rejected_facts hinv hcounted hver hadm
      exact (quiet_of_unopened hinv hop).1
    · by_contra hadm
      simp only [Bool.not_eq_false, Handler.admitted, Bool.and_eq_true,
        decide_eq_true_eq] at hadm
      obtain ⟨⟨hdec, -⟩, hrej⟩ := hadm
      have := hinv.verdict hdec
      rw [hver] at this
      exact hrej this.symm

/-- C5: in every reachable state `buffer` holds at most 10000 envelopes.  When
the producer has pulled an envelope `e` with a nil error it offers `e` to
`buffer` without blocking: if `buffer` holds 10000 envelopes its contents stay
as they are (`e` is discarded, nothing leaves the head), `dropped` grows by
exactly 1 and the producer is back at its next pull; if it holds fewer, `e` is
appended at the tail, `dropped` is unchanged and the length grows by 1. -/
theorem C5_drop_newest (s : Server) (as : List Action) (c : Call)
    (hc : c ∈ ((System.boot s).run as).calls) :
    c.buffer.length ≤ 10000 ∧
    (∀ e, c.producer = .pull → c.rx c.pulls = .envelope e →
      ∀ s1 : Server, ∃ c1 : Call, s1.consumeReceiver c = some (s1, c1) ∧ c1.producer = .enqueue e ∧
        c1.buffer = c.buffer) ∧
    (∀ e, c.producer = .enqueue e → ∀ s1 : Server, ∃ (s2 : Server) (c2 : Call),
      s1.consumeReceiver c = some (s2, c2) ∧
      c2.producer = .pull ∧ s2.egressMetric = s1.egressMetric ∧
      (c.buffer.length = 10000 →
        c2.buffer = c.buffer ∧ s2.droppedMetric.delta = s1.droppedMetric.delta + 1 ∧
        droppedDelta c2.log = droppedDelta c.log + 1) ∧
      (c.buffer.length < 10000 →
        c2.buffer = c.buffer ++ [e] ∧ c2.buffer.length = c.buffer.length + 1 ∧
        s2.droppedMetric = s1.droppedMetric ∧ droppedDelta c2.log = droppedDelta c.log)) := by
  have hinv := boot_inv s as c hc
  refine ⟨by simpa [bufferCap] using hinv.cap, ?_, ?_⟩
  · intro e hp hrx s1
    simp only [Server.consumeReceiver, hp, hrx]
    exact ⟨_, rfl, rfl, rfl⟩
  · intro e hp s1
    simp only [Server.consumeReceiver, hp]
    by_cases hlen : c.buffer.length < bufferCap
    · rw [if_pos hlen]
      refine ⟨_, _, rfl, rfl, rfl, ?_, ?_⟩
      · intro h; simp [bufferCap] at hlen; omega
      · intro _; simp
    · rw [if_neg hlen]
      refine ⟨_, _, rfl, rfl, rfl, ?_, ?_⟩
      · intro _; simp [CounterMetric.Increment, Event.droppedDelta]
      · intro h; simp [bufferCap] at hlen; omega

theorem pulledEnvelopes_eq (log : List Event) :
    pulledEnvelopes log = (pulled log).filterMap Pull.envelope? := by
  induction log with
  | nil => rfl
  | cons ev log ih =>
    simp only [pulledEnvelopes, pulled] at ih ⊢
    rcases ev with _ | _ | _ | _ | (_ | _ | _) | _ | _ | _ <;>
      simp [List.filterMap_cons, Event.pulledEnvelope, Event.pulled, Pull.envelope?, ih]

/-- C6: in every reachable state, with or without drops and whether or not a
`Send` failed, the envelopes passed to `stream.Send`, in call order, are a
subsequence of the envelopes `rx` returned with a nil error, in pull order:
every sent envelope is a value `rx` returned, each pull is sent at most once,
and the order is kept.  The pulled envelopes are those among the results
`rx 0, rx 1, ...` of the calls made so far. -/
theorem C6_sent_subsequence (s : Server) (as : List Action) :
    ∀ c ∈ ((System.boot s).run as).calls,
      List.Sublist ((sent c.log).map Prod.fst) (pulledEnvelopes c.log) ∧
      pulledEnvelopes c.log = ((List.range c.pulls).map c.rx).filterMap Pull.envelope? := by
  intro c hc
  have hinv := boot_inv s as c hc
  refine ⟨?_, by rw [pulledEnvelopes_eq, hinv.results]⟩
  refine List.Sublist.trans ?_ hinv.flow
  simp [List.append_assoc]

/-! ## Subscriptions that run to their end -/

theorem filterMap_envelopes_length (rx : Nat → Pull) (N : Nat)
    (henv : ∀ k < N, (rx k).isEnvelope = true) :
    (((List.range N).map rx).filterMap Pull.envelope?).length = N := by
  induction N with
  | zero => rfl
  | succ n ih =>
    have h1 := ih (fun k hk => henv k (Nat.lt_succ_of_lt hk))
    have h2 := henv n (Nat.lt_succ_self n)
    rw [List.range_succ, List.map_append, List.filterMap_append, List.length_append, h1]
    cases hr : rx n <;> simp [hr, Pull.isEnvelope, Pull.envelope?] at h2 ⊢

theorem filterMap_envelopes_stop (rx : Nat → Pull) (N : Nat) (hend : (rx N).isEnvelope = false) :
    ((List.range (N + 1)).map rx).filterMap Pull.envelope?
      = ((List.range N).map rx).filterMap Pull.envelope? := by
  rw [List.range_succ, List.map_append, List.filterMap_append]
  cases hr : rx N <;> simp [hr, Pull.isEnvelope, Pull.envelope?] at hend ⊢

theorem filterMap_envelopes_eq (rx : Nat → Pull) (es : List Envelope)
    (henv : ∀ k (hk : k < es.length), rx k = .envelope es[k]) :
    ((List.range es.length).map rx).filterMap Pull.envelope? = es := by
  have hmap : (List.range es.length).map rx = es.map Pull.envelope := by
    apply List.ext_getElem
    · simp
    · intro k h1 h2
      simp only [List.length_map, List.length_range] at h1
      simp [henv k h1]
  rw [hmap, List.filterMap_map]
  have : (Pull.envelope? ∘ Pull.envelope) = some := by
    funext e
    rfl
  rw [this, List.filterMap_some]

/-- What holds of a subscription (the call was admitted, its filter is valid
and `Receive` answered `rx`) that has returned, when `rx` yields `N`
envelopes and then ends, and every `Send` succeeds. -/
theorem subscription_final {R : Receiver} {c : Call} {v : Int} {rx : Nat → Pull} {N : Nat}
    (h : c.Inv R) (hv : c.activeConnections = some v) (hadm : v ≤ 500)
    (hvalid : invalidFilter c.r = false) (hrx : R.Receive c.srv.Context c.r = some rx)
    (henv : ∀ k < N, (rx k).isEnvelope = true) (hend : (rx N).isEnvelope = false)
    (hsend : ∀ k e, c.srv.Send k e = true) (err : Option Error) (hret : c.pc = .returned err) :
    err = none ∧ c.rx = rx ∧ c.pulls = N + 1 ∧
    pulledEnvelopes c.log = ((List.range N).map rx).filterMap Pull.envelope? ∧
    (pulledEnvelopes c.log).length = N ∧
    (sent c.log).map Prod.snd = List.replicate (egressDelta c.log) true ∧
    (sent c.log).length = egressDelta c.log ∧
    (sent c.log).length + droppedDelta c.log = N ∧
    List.Sublist ((sent c.log).map Prod.fst) (pulledEnvelopes c.log) := by
  have hopen := (admitted_facts h hv hadm hvalid).2 err hret
  have hflags := h.flags
  have hans := h.answer
  rw [hret] at hflags hans
  simp only [Handler.flag, Handler.opened] at hflags hans
  have hall : ∀ p ∈ sent c.log, p.2 = true := by
    intro p hp
    obtain ⟨k, hk⟩ := outcomes_of_indexed h.indexed p hp
    rw [← hk]
    exact hsend k p.1
  have herr : err = none := by
    rcases err with _ | (_ | _ | _ | _)
    · rfl
    · simp [openedOf] at hopen
    · simp [openedOf] at hopen
    · simp only [openedOf] at hans
      rw [hrx] at hans
      simp at hans
    · exfalso
      simp only [flagOf] at hflags
      have hmem : false ∈ (sent c.log).map Prod.snd := by
        rw [hflags]
        simp
      obtain ⟨p, hp, hp2⟩ := List.mem_map.mp hmem
      have := hall p hp
      rw [hp2] at this
      simp at this
  subst herr
  simp only [openedOf] at hans
  rw [hrx] at hans
  simp only [Option.some.injEq] at hans
  simp only [flagOf, List.append_nil] at hflags
  have hdr := h.drained (by rw [hret]; rfl)
  have hcl := h.closing
  rw [hdr.1] at hcl
  have hdone : c.producer.done = true := by
    cases hp : c.producer <;> simp [hp, Producer.hasClosed, Producer.done] at hcl ⊢
  have hpend : c.producer.pending = [] := by
    cases hp : c.producer <;> simp [hp, Producer.hasClosed, Producer.pending] at hcl ⊢
  have hlast := h.last hdone
  have henvs := h.envelopes
  rw [hdone] at henvs
  rw [← hans] at hlast henvs
  have hpulls : c.pulls = N + 1 := by
    rcases Nat.lt_trichotomy (c.pulls - 1) N with hlt | heq | hgt
    · have := henv _ hlt
      rw [hlast.2] at this
      simp at this
    · omega
    · have := henvs N (by simp only [if_true]; omega)
      rw [hend] at this
      simp at this
  have hpe : pulledEnvelopes c.log = ((List.range N).map rx).filterMap Pull.envelope? := by
    rw [pulledEnvelopes_eq, h.results, hpulls, ← hans, filterMap_envelopes_stop rx N hend]
  have hlen : (pulledEnvelopes c.log).length = N := by
    rw [hpe]
    exact filterMap_envelopes_length rx N henv
  have hacc := h.account
  rw [hret, hdr.2, hpend, hlen] at hacc
  simp only [Handler.inHand, List.length_nil, Nat.add_zero] at hacc
  have hsl : (sent c.log).length = egressDelta c.log := by
    have := congrArg List.length hflags
    simpa using this
  refine ⟨rfl, hans.symm, hpulls, hpe, hlen, hflags, hsl, hacc, ?_⟩
  refine List.Sublist.trans ?_ h.flow
  simp [List.append_assoc]

/-! ## Accounting, clean end of stream, send failure, alerts -/

/-- A subscription whose pull function ends does return: driving its two
goroutines from any reachable state leads to a state in which the handler has
returned. -/
theorem subscription_returns (s : Server) (as : List Action) (i : Nat) (c : Call) (N : Nat)
    (hc : ((System.boot s).run as).calls[i]? = some c)
    (hN : ∀ rx, s.receiver.Receive c.srv.Context c.r = some rx → (rx N).isEnvelope = false) :
    ∃ n c' err, ((System.boot s).run (as ++ drive i n)).calls[i]? = some c' ∧
      c'.pc = .returned err ∧ c'.r = c.r ∧ c'.srv = c.srv ∧
      (∀ v, c.activeConnections = some v → c'.activeConnections = some v) := by
  obtain ⟨hR, hinv⟩ := run_inv as (System.boot s) rfl (by simp [System.boot])
  have hR' : ((System.boot s).run as).server.receiver = s.receiver := hR
  obtain ⟨n, c', err, h1, h2, h3, h4, h5⟩ :=
    drive_returns (R := s.receiver) (N := N) (c.work N) ((System.boot s).run as) i c hR' hinv hc
      (le_refl _) hN
  exact ⟨n, c', err, by rw [run_append]; exact h1, h2, h3, h4, h5⟩

theorem ends_of_answer {R : Receiver} {c : Call} {rx : Nat → Pull} {N : Nat}
    (hrx : R.Receive c.srv.Context c.r = some rx) (hend : (rx N).isEnvelope = false) :
    ∀ rx', R.Receive c.srv.Context c.r = some rx' → (rx' N).isEnvelope = false := by
  intro rx' hrx'
  rw [hrx] at hrx'
  simp only [Option.some.injEq] at hrx'
  rw [← hrx']
  exact hend

theorem pairs_eq (l : List (Envelope × Bool)) :
    ∀ es : List Envelope, l.map Prod.fst = es → l.map Prod.snd = List.replicate es.length true →
      l = es.map (fun e => (e, true)) := by
  induction l with
  | nil =>
    intro es h1 _
    rw [← h1]
    rfl
  | cons p l ih =>
    intro es h1 h2
    rw [← h1] at h2 ⊢
    simp only [List.map_cons, List.length_cons, List.replicate_succ, List.cons.injEq] at h2 ⊢
    exact ⟨Prod.ext rfl h2.1, ih _ rfl h2.2⟩

/-- C8: for a subscription (admitted, valid filter, `Receive` answered `rx`)
whose pull function returns the `n ≤ 10000` envelopes `es` in order and then
`io.EOF`, and whose `Send` calls all succeed: when the handler has returned, it
returned nil, `Send` was called exactly `n` times, with exactly the envelopes
`es` in that order, `egress` grew by exactly `n` and `dropped` did not change.
Such a subscription does return, and these increases are increases of the
metrics of the server: before and after, the `egress` metric of the server is
its initial value plus the increases logged by all calls (so this subscription
contributes exactly `n` to it), and the `dropped` metric is its initial value
plus the drops logged by all calls (this one contributes 0) plus the amounts
alerted. -/
theorem C8_clean_eof (s : Server) (as : List Action) (i : Nat) (c : Call)
    (v : Int) (rx : Nat → Pull) (es : List Envelope)
    (hc : ((System.boot s).run as).calls[i]? = some c)
    (hv : c.activeConnections = some v) (hadm : v ≤ 500) (hvalid : invalidFilter c.r = false)
    (hrx : s.receiver.Receive c.srv.Context c.r = some rx)
    (hlen : es.length ≤ 10000)
    (henv : ∀ k (hk : k < es.length), rx k = .envelope es[k]) (hend : rx es.length = .eof)
    (hsend : ∀ k e, c.srv.Send k e = true) :
    (∀ err, c.pc = .returned err →
      err = none ∧ sent c.log = es.map (fun e => (e, true)) ∧
      egressDelta c.log = es.length ∧ droppedDelta c.log = 0) ∧
    (∃ n c', ((System.boot s).run (as ++ drive i n)).calls[i]? = some c' ∧
      c'.pc = .returned none ∧ sent c'.log = es.map (fun e => (e, true)) ∧
      egressDelta c'.log = es.length ∧ droppedDelta c'.log = 0 ∧
      ((System.boot s).run (as ++ drive i n)).server.egressMetric.delta
        = s.egressMetric.delta
          + (((System.boot s).run (as ++ drive i n)).calls.map fun c => egressDelta c.log).sum ∧
      ((System.boot s).run (as ++ drive i n)).server.droppedMetric.delta
        = s.droppedMetric.delta
          + (((System.boot s).run (as ++ drive i n)).calls.map fun c => droppedDelta c.log).sum
          + alerted (as ++ drive i n)) ∧
    ((System.boot s).run as).server.egressMetric.delta
      = s.egressMetric.delta
        + (((System.boot s).run as).calls.map fun c => egressDelta c.log).sum ∧
    ((System.boot s).run as).server.droppedMetric.delta
      = s.droppedMetric.delta
        + (((System.boot s).run as).calls.map fun c => droppedDelta c.log).sum
        + alerted as := by
  have henv' : ∀ k < es.length, (rx k).isEnvelope = true := by
    intro k hk
    rw [henv k hk]
    rfl
  have hend' : (rx es.length).isEnvelope = false := by
    rw [hend]
    rfl
  have key : ∀ (d : Call) (bs : List Action), d ∈ ((System.boot s).run bs).calls →
      d.activeConnections = some v → d.r = c.r → d.srv = c.srv →
      ∀ err, d.pc = .returned err →
        err = none ∧ sent d.log = es.map (fun e => (e, true)) ∧
        egressDelta d.log = es.length ∧ droppedDelta d.log = 0 := by
    intro d bs hd hdv hdr hds err hret
    have hinv := boot_inv s bs d hd
    obtain ⟨h1, -, -, h4, h5, h6, h7, h8, h9⟩ :=
      subscription_final hinv hdv hadm (by rw [hdr]; exact hvalid)
        (by rw [hdr, hds]; exact hrx) henv' hend' (by rw [hds]; exact hsend) err hret
    have hdrop : droppedDelta d.log = 0 := hinv.noDrop (by rw [h5]; simpa [bufferCap] using hlen)
    have hsl : (sent d.log).length = es.length := by omega
    have hpe : pulledEnvelopes d.log = es := by
      rw [h4]
      exact filterMap_envelopes_eq rx es henv
    have hfst : (sent d.log).map Prod.fst = es := by
      rw [hpe] at h9
      exact h9.eq_of_length (by simpa using hsl)
    have hsnd : (sent d.log).map Prod.snd = List.replicate es.length true := by
      rw [h6, ← h7, hsl]
    exact ⟨h1, pairs_eq _ es hfst hsnd, by omega, hdrop⟩
  refine ⟨?_, ?_, (boot_ledger s as).1, (boot_ledger s as).2⟩
  · exact key c as (List.getElem?_mem hc) hv rfl rfl
  · obtain ⟨n, c', err, hc', hret, hr, hs, hac⟩ :=
      subscription_returns s as i c es.length hc (ends_of_answer hrx hend')
    obtain ⟨h1, h2, h3, h4⟩ := key c' _ (List.getElem?_mem hc') (hac v hv) hr hs err hret
    subst h1
    exact ⟨n, c', hc', hret, h2, h3, h4, (boot_ledger s (as ++ drive i n)).1,
      (boot_ledger s (as ++ drive i n)).2⟩

/-- C10 as amended: for every non-negative `missed` (below `2^63`, the range
of a Go `int`), `Alert(missed)` increments the `dropped` counter by `missed`;
for a negative `missed` (from `-2^63`) it increments it by `missed + 2^64`; for
every `missed` the amount added is `uint64(missed)`, and the `egress` counter,
`activeConnections` and the health gauges (`subscriptionCount`) are left
unchanged. -/
theorem C10_alert_adds_missed (s : Server) (missed : Int) :
    (0 ≤ missed → missed < 2 ^ 63 →
      ((s.Alert missed).droppedMetric.delta : Int) = s.droppedMetric.delta + missed) ∧
    (missed < 0 → -(2 ^ 63) ≤ missed →
      (uint64 missed : Int) = missed + 2 ^ 64 ∧
      ((s.Alert missed).droppedMetric.delta : Int)
        = s.droppedMetric.delta + (missed + 2 ^ 64)) ∧
    (s.Alert missed).droppedMetric.delta = s.droppedMetric.delta + uint64 missed ∧
    (s.Alert missed).egressMetric = s.egressMetric ∧
    (s.Alert missed).activeConnections = s.activeConnections ∧
    (s.Alert missed).health = s.health := by
  refine ⟨?_, ?_, rfl, rfl, rfl, rfl⟩
  · intro h0 h1
    simp only [Server.Alert, CounterMetric.Increment, uint64, Nat.cast_add]
    have : missed % 2 ^ 64 = missed := Int.emod_eq_of_lt h0 (by omega)
    rw [this, Int.toNat_of_nonneg h0]
  · intro h0 h1
    have hu : (uint64 missed : Int) = missed + 2 ^ 64 := by
      simp only [uint64]
      have : missed % 2 ^ 64 = missed + 2 ^ 64 := by omega
      rw [this, Int.toNat_of_nonneg (by omega)]
    refine ⟨hu, ?_⟩
    simp only [Server.Alert, CounterMetric.Increment, Nat.cast_add]
    rw [hu]

/-! ## Concrete instances -/

/-- C1 at the 501st of 501 concurrent calls on a new server, with a request whose
filter is also invalid: it returns the too-many-connections error. -/
theorem C1_witness :
    ∃ c', ((System.boot demoServer).run (flood badRequest demoStream 501 ++
        [.step 500 .handler, .step 500 .handler, .step 500 .handler])).calls[500]? = some c' ∧
      c'.pc = .returned (some .tooManyConnections) ∧ received c'.log = [] ∧ sent c'.log = [] ∧
      egressDelta c'.log = 0 ∧ droppedDelta c'.log = 0 :=
  (C1_over_cap_rejected demoServer (flood badRequest demoStream 501) 500
    (waiting badRequest demoStream 500) 501
    (flood_call demoReceiver _ false badRequest demoStream 501 500 (by decide)) rfl
    (by decide)).2.2.2.1
    [.step 500 .handler, .step 500 .handler, .step 500 .handler] (by decide)

/-- C2 at a single call with a type filter and no source id: it returns the
invalid-request error without calling `Receive` or `Send`. -/
theorem C2_witness :
    ∃ c', ((System.boot demoServer).run (flood badRequest demoStream 1 ++
        [.step 0 .handler, .step 0 .handler, .step 0 .handler])).calls[0]? = some c' ∧
      c'.pc = .returned (some .invalidRequest) ∧ received c'.log = [] ∧ sent c'.log = [] :=
  ((C2_filter_validation demoServer (flood badRequest demoStream 1) 0
    (waiting badRequest demoStream 0) 1
    (flood_call demoReceiver _ false badRequest demoStream 1 0 (by decide)) rfl
    (by decide)).2.2.1 rfl).2.2
    [.step 0 .handler, .step 0 .handler, .step 0 .handler] (by decide)

set_option maxRecDepth 8000 in
/-- C5 at a subscription whose producer has just pulled the envelope 10 and
whose `buffer` is empty: the producer appends 10 to `buffer`, goes back to its
pull, and `dropped` is unchanged. -/
theorem C5_witness :
    pulledCall.producer = .enqueue 10 ∧ pulledCall.buffer = [] ∧
    ∃ (s2 : Server) (c2 : Call), demoServer.consumeReceiver pulledCall = some (s2, c2) ∧
      c2.producer = .pull ∧ s2.egressMetric = demoServer.egressMetric ∧
      (pulledCall.buffer.length = 10000 →
        c2.buffer = pulledCall.buffer ∧
        s2.droppedMetric.delta = demoServer.droppedMetric.delta + 1 ∧
        droppedDelta c2.log = droppedDelta pulledCall.log + 1) ∧
      (pulledCall.buffer.length < 10000 →
        c2.buffer = pulledCall.buffer ++ [10] ∧
        c2.buffer.length = pulledCall.buffer.length + 1 ∧
        s2.droppedMetric = demoServer.droppedMetric ∧
        droppedDelta c2.log = droppedDelta pulledCall.log) :=
  ⟨by decide, by decide,
    (C5_drop_newest demoServer pulledRun pulledCall
      (List.getElem?_mem
        (rfl : ((System.boot demoServer).run pulledRun).calls[0]? = some pulledCall))).2.2
      10 (by decide) demoServer⟩

set_option maxRecDepth 8000 in
/-- C8 at a subscription pulling three envelopes and then `io.EOF`: all three
are sent in order, `egress` grows by 3 and nil is returned; in the run
`cleanRun`, where it is the only call, the `egress` metric of the server goes
from 0 to 3 and its `dropped` metric stays 0. -/
theorem C8_witness :
    (∃ n c',
      ((System.boot demoServer).run (flood demoRequest demoStream 1 ++ drive 0 n)).calls[0]?
        = some c' ∧
      c'.pc = .returned none ∧ sent c'.log = [(10, true), (11, true), (12, true)] ∧
      egressDelta c'.log = 3 ∧ droppedDelta c'.log = 0 ∧
      ((System.boot demoServer).run
          (flood demoRequest demoStream 1 ++ drive 0 n)).server.egressMetric.delta
        = demoServer.egressMetric.delta
          + (((System.boot demoServer).run
              (flood demoRequest demoStream 1 ++ drive 0 n)).calls.map
                fun c => egressDelta c.log).sum ∧
      ((System.boot demoServer).run
          (flood demoRequest demoStream 1 ++ drive 0 n)).server.droppedMetric.delta
        = demoServer.droppedMetric.delta
          + (((System.boot demoServer).run
              (flood demoRequest demoStream 1 ++ drive 0 n)).calls.map
                fun c => droppedDelta c.log).sum
          + alerted (flood demoRequest demoStream 1 ++ drive 0 n)) ∧
    demoServer.egressMetric.delta = 0 ∧
    (((System.boot demoServer).run cleanRun).calls.map fun c => c.pc) = [.returned none] ∧
    ((System.boot demoServer).run cleanRun).server.egressMetric.delta = 3 ∧
    ((System.boot demoServer).run cleanRun).server.droppedMetric.delta = 0 :=
  ⟨(C8_clean_eof demoServer (flood demoRequest demoStream 1) 0
    (waiting demoRequest demoStream 0) 1
    (fun k => if k < 3 then .envelope (10 + k) else .eof) [10, 11, 12]
    (flood_call demoReceiver _ false demoRequest demoStream 1 0 (by decide)) rfl (by decide) rfl
    rfl (by decide) (by decide) rfl (fun _ _ => rfl)).2.1,
    by decide, by decide, by decide, by decide⟩

/-- C10 fails for a negative argument: `Alert(-1)` on a new server leaves the
`dropped` counter at `2^64 - 1`, not at `0 + (-1)`. -/
theorem C10_negative_missed :
    (demoServer.Alert (-1)).droppedMetric.delta = 18446744073709551615 ∧
    ¬ (((demoServer.Alert (-1)).droppedMetric.delta : Int)
        = (demoServer.droppedMetric.delta : Int) + (-1)) := by
  decide

/-- C10 as amended, at `missed = 7`: the `dropped` counter goes from 0 to 7 and
nothing else changes. -/
theorem C10_witness :
    ((demoServer.Alert 7).droppedMetric.delta : Int) = demoServer.droppedMetric.delta + 7 ∧
    (demoServer.Alert 7).droppedMetric.delta = 7 ∧
    (demoServer.Alert 7).egressMetric = demoServer.egressMetric ∧
    (demoServer.Alert 7).activeConnections = demoServer.activeConnections ∧
    (demoServer.Alert 7).health = demoServer.health :=
  ⟨(C10_alert_adds_missed demoServer 7).1 (by decide) (by decide), by decide,
    (C10_alert_adds_missed demoServer 7).2.2.2⟩

set_option maxRecDepth 8000 in
/-- C6 at the subscription of `brokenRun`, whose third `Send` fails: the
envelopes passed to `Send` are a subsequence of the pulled ones. -/
theorem C6_witness :
    List.Sublist ((sent brokenCall.log).map Prod.fst) (pulledEnvelopes brokenCall.log) ∧
    pulledEnvelopes brokenCall.log
      = ((List.range brokenCall.pulls).map brokenCall.rx).filterMap Pull.envelope? :=
  C6_sent_subsequence demoServer brokenRun brokenCall
    (List.getElem?_mem (rfl : ((System.boot demoServer).run brokenRun).calls[0]? = some brokenCall))

/-- C3 at a call whose `Receive` fails: it has returned the setup error after
one `Inc`, one `Dec`, one +1 and one -1, and both counters are back at 0. -/
theorem C3_witness :
    setupCall.pc = .returned (some .setupFailed) ∧
    (healthIncs setupCall.log = ["subscriptionCount"] ∧
      healthDecs setupCall.log = ["subscriptionCount"] ∧
      activeDeltas setupCall.log = [1, -1]) ∧
    (((System.boot closedServer).run setupRun).server.activeConnections
        = closedServer.activeConnections ∧
      ((System.boot closedServer).run setupRun).server.health.gauge "subscriptionCount"
        = closedServer.health.gauge "subscriptionCount") ∧
    closedServer.activeConnections = 0 :=
  ⟨by decide,
    (C3_counters_balance closedServer setupRun).1 setupCall
      (List.getElem?_mem
        (rfl : ((System.boot closedServer).run setupRun).calls[0]? = some setupCall))
      (some .setupFailed) (by decide),
    (C3_counters_balance closedServer setupRun).2.2.2.1 (by
      intro c hc
      have hcalls : ((System.boot closedServer).run setupRun).calls = [setupCall] := rfl
      rw [hcalls, List.mem_singleton] at hc
      subst hc
      exact ⟨some .setupFailed, by decide⟩),
    rfl⟩

end Egress
